import Mathlib

set_option maxRecDepth 100000

/-
Verification of the markdown-normalization and PDF-conversion pipeline
(`src/preprocessor.ts`, `src/converter.ts`, `src/index.ts`).

The TypeScript sources are shallowly embedded here:
* strings are `List Char` (one entry per Unicode scalar; the sources never
  split surrogate pairs, so this matches JS semantics on the inputs at hand),
* every JS regular-expression pass is transcribed into a small regex AST
  (`RE`) executed by a fuel-bounded backtracking matcher `mrun` that follows
  the ECMAScript semantics (leftmost match, ordered alternation,
  greedy/lazy quantifiers, lookaround, multiline anchors, word boundaries),
  and a global-replace driver `replaceGo` mirroring `String.prototype.replace`
  with the `g` flag (matching runs over the original text, replacements are
  not rescanned),
* the URL / code-block placeholder machinery is embedded by dedicated
  scanners (`protectAux` / `restoreAux`) that implement exactly the
  `replace` calls of the source,
* `convertMarkdownToPdf`'s asynchronous session lifecycle is embedded as a
  pure function over an environment (`RenderEnv`) that decides which awaited
  step throws — the `await browser.close()` of the `finally` block
  included, whose rejection supersedes the pending result and escapes the
  function; the browser open/close effects are recorded in a trace.
-/

/-- JS whitespace class `\s` (the members that can occur in markdown text;
the exotic Unicode space separators are included for the common cases). -/
def jsWs (c : Char) : Bool :=
  c = ' ' || c = '\t' || c = '\n' || c = '\r' || c = '\x0b' || c = '\x0c' ||
  c = Char.ofNat 0xa0 || c = Char.ofNat 0xfeff || c = Char.ofNat 0x2028 || c = Char.ofNat 0x2029

/-- The backtick character (used by fenced/inline code spans). -/
def btk : Char := Char.ofNat 96

/-- JS `String.prototype.trim`. -/
def trimJS (cs : List Char) : List Char :=
  ((cs.dropWhile jsWs).reverse.dropWhile jsWs).reverse

/-- JS `String.prototype.includes`: `pat` occurs as a contiguous substring. -/
def hasSub (pat : List Char) : List Char → Bool
  | [] => pat.isPrefixOf []
  | c :: r => pat.isPrefixOf (c :: r) || hasSub pat r

/-- ASCII lowercase letter, the JS class `[a-z]`. -/
def asciiLower (c : Char) : Bool := 'a' ≤ c && c ≤ 'z'

/-- ASCII uppercase letter, the JS class `[A-Z]`. -/
def asciiUpper (c : Char) : Bool := 'A' ≤ c && c ≤ 'Z'

/-- JS word character `\w` = `[A-Za-z0-9_]` (used by `\b`). -/
def isWordChar (c : Char) : Bool :=
  asciiLower c || asciiUpper c || c.isDigit || c = '_'

/-- Decimal digits of a natural number, most significant first.  The first
argument is fuel (structural recursion so the kernel can evaluate); any
fuel at least the value itself is enough. -/
def natDecimalAux : Nat → Nat → List Char → List Char
  | 0, _, acc => acc
  | _ + 1, 0, acc => acc
  | f + 1, n + 1, acc =>
    natDecimalAux f ((n + 1) / 10) (Char.ofNat (48 + (n + 1) % 10) :: acc)

/-- Decimal representation of a natural number, as JS `String(n)` produces
inside a template literal. -/
def natDecimal (n : Nat) : List Char :=
  if n = 0 then ['0'] else natDecimalAux n n []

/-- Parse a list of decimal digits, as JS `parseInt` does on an all-digit
string. -/
def digitsToNat (ds : List Char) : Nat :=
  ds.foldl (fun a c => a * 10 + (c.toNat - 48)) 0

/- ------------------------------------------------------------------ -/
/- A small backtracking regex engine with ECMAScript semantics.       -/
/- ------------------------------------------------------------------ -/

/-- Regex AST.  `star`/`opt` carry a laziness flag (`true` = lazy `*?`/`??`).
`npb` is a single-character negative lookbehind, `nla` a negative lookahead,
`bol`/`eol` are the multiline anchors `^`/`$`, `wb` is `\b`. -/
inductive RE where
  | fail : RE
  | eps : RE
  | cls : (Char → Bool) → RE
  | str : List Char → RE
  | strCI : List Char → RE
  | seq : RE → RE → RE
  | alt : RE → RE → RE
  | star : RE → Bool → RE
  | opt : RE → Bool → RE
  | grp : Nat → RE → RE
  | nla : RE → RE
  | npb : (Char → Bool) → RE
  | bol : RE
  | eol : RE
  | wb : RE

/-- Captured groups: latest binding of a group number wins. -/
abbrev Caps := List (Nat × List Char)

/-- Look up capture group `n` (JS yields the empty string for an absent
group in a template). -/
def capGet (cp : Caps) (n : Nat) : List Char :=
  ((cp.find? (fun e => e.1 = n)).map (fun e => e.2)).getD []

/-- Single literal character. -/
def rch (c : Char) : RE := RE.cls (fun d => d = c)

/-- Literal string. -/
def rlit (s : String) : RE := RE.str s.data

/-- Case-insensitive literal string (for regexes with the `i` flag). -/
def rlitCI (s : String) : RE := RE.strCI s.data

/-- Sequence of regexes. -/
def rseq (l : List RE) : RE := l.foldr RE.seq RE.eps

/-- Ordered alternation of regexes. -/
def ralt (l : List RE) : RE := l.foldr RE.alt RE.fail

/-- One-or-more (`+`, or `+?` when `lzy`). -/
def rplus (r : RE) (lzy : Bool) : RE := RE.seq r (RE.star r lzy)

/-- The backtracking matcher.  `bef` is the reversed consumed text (for
lookbehind and `^`), `aft` the remaining text, `k` the success
continuation; the first success in PCRE visiting order wins, which yields
the ECMAScript match.  The fuel only bounds recursion depth; it is chosen
large enough that it is never exhausted on the inputs considered. -/
def mrun : Nat → RE → List Char → List Char → Caps →
    (List Char → List Char → Caps → Option (List Char × Caps)) →
    Option (List Char × Caps)
  | 0, _, _, _, _, _ => none
  | _ + 1, .fail, _, _, _, _ => none
  | _ + 1, .eps, bef, aft, cp, k => k bef aft cp
  | _ + 1, .cls p, bef, aft, cp, k =>
    match aft with
    | [] => none
    | c :: r => if p c then k (c :: bef) r cp else none
  | _ + 1, .str s, bef, aft, cp, k =>
    if s.isPrefixOf aft then k (s.reverse ++ bef) (aft.drop s.length) cp else none
  | _ + 1, .strCI s, bef, aft, cp, k =>
    let t := aft.take s.length
    if t.length = s.length && (t.map Char.toLower == s.map Char.toLower) then
      k (t.reverse ++ bef) (aft.drop s.length) cp
    else none
  | f + 1, .seq a b, bef, aft, cp, k =>
    mrun f a bef aft cp (fun b2 a2 c2 => mrun f b b2 a2 c2 k)
  | f + 1, .alt a b, bef, aft, cp, k =>
    (mrun f a bef aft cp k) <|> (mrun f b bef aft cp k)
  | f + 1, .star a lzy, bef, aft, cp, k =>
    let go := mrun f a bef aft cp (fun b2 a2 c2 =>
      if a2.length < aft.length then mrun f (.star a lzy) b2 a2 c2 k else k b2 a2 c2)
    if lzy then (k bef aft cp) <|> go else go <|> (k bef aft cp)
  | f + 1, .opt a lzy, bef, aft, cp, k =>
    if lzy then (k bef aft cp) <|> (mrun f a bef aft cp k)
    else (mrun f a bef aft cp k) <|> (k bef aft cp)
  | f + 1, .grp n a, bef, aft, cp, k =>
    mrun f a bef aft cp (fun b2 a2 c2 =>
      k b2 a2 ((n, aft.take (aft.length - a2.length)) :: c2))
  | f + 1, .nla a, bef, aft, cp, k =>
    match mrun f a bef aft cp (fun _ a2 c2 => some (a2, c2)) with
    | some _ => none
    | none => k bef aft cp
  | _ + 1, .npb p, bef, aft, cp, k =>
    match bef with
    | [] => k bef aft cp
    | c :: _ => if p c then none else k bef aft cp
  | _ + 1, .bol, bef, aft, cp, k =>
    match bef with
    | [] => k bef aft cp
    | c :: _ => if c = '\n' then k bef aft cp else none
  | _ + 1, .eol, bef, aft, cp, k =>
    match aft with
    | [] => k bef aft cp
    | c :: _ => if c = '\n' then k bef aft cp else none
  | _ + 1, .wb, bef, aft, cp, k =>
    let wp := match bef with | [] => false | c :: _ => isWordChar c
    let wn := match aft with | [] => false | c :: _ => isWordChar c
    if wp ≠ wn then k bef aft cp else none

/-- Try to match `re` at the current position; on success return
(matched text, remaining text, captures). -/
def tryAt (f : Nat) (re : RE) (bef aft : List Char) :
    Option (List Char × List Char × Caps) :=
  match mrun f re bef aft [] (fun _ a2 c2 => some (a2, c2)) with
  | some (rest, cp) => some (aft.take (aft.length - rest.length), rest, cp)
  | none => none

/-- Global-replace driver, mirroring JS `text.replace(re, cb)` with the `g`
flag: scan left to right over the original text, replace each
(non-overlapping) match by `rp match caps`, collecting any fix strings the
callback records. `n` bounds the number of scan steps. -/
def replaceGo (f : Nat) (re : RE)
    (rp : List Char → Caps → List Char × List (List Char)) :
    Nat → List Char → List Char → List Char × List (List Char)
  | 0, _, _ => ([], [])
  | n + 1, bef, aft =>
    match tryAt f re bef aft with
    | some (m, rest, cp) =>
      if m.isEmpty then
        -- no regex in the source can make an empty match; step one char
        match aft with
        | [] => ([], [])
        | c :: r =>
          let pr := replaceGo f re rp n (c :: bef) r
          (c :: pr.1, pr.2)
      else
        let rep := rp m cp
        let pr := replaceGo f re rp n (m.reverse ++ bef) rest
        (rep.1 ++ pr.1, rep.2 ++ pr.2)
    | none =>
      match aft with
      | [] => ([], [])
      | c :: r =>
        let pr := replaceGo f re rp n (c :: bef) r
        (c :: pr.1, pr.2)

/-- Matcher fuel for a text: generous bound on backtracking depth. -/
def reFuel (cs : List Char) : Nat := (cs.length + 16) * 32

/-- `cs.replace(re, rp)` with the `g` flag (text result, fixes recorded). -/
def reReplace (re : RE)
    (rp : List Char → Caps → List Char × List (List Char))
    (cs : List Char) : List Char × List (List Char) :=
  replaceGo (reFuel cs) re rp (cs.length + 1) [] cs

/- ------------------------------------------------------------------ -/
/- Placeholder protection (URLs and code blocks), preprocessor.ts     -/
/- ------------------------------------------------------------------ -/

/-- Character class `[^\s*]` of the URL patterns. -/
def urlBodyChar (c : Char) : Bool := !(jsWs c) && c ≠ '*'

/-- Match the regex `https?:\/\/[^\s*]+` at the start of `cs`
(the `s?` backtracking is vacuous because the alternative requires `:`).
Returns (matched text, rest). -/
def matchUrlAt (cs : List Char) : Option (List Char × List Char) :=
  if cs.take 4 = ['h', 't', 't', 'p'] then
    let schemeLen := if (cs.drop 4).take 1 = ['s'] then 5 else 4
    let rest2 := cs.drop schemeLen
    if rest2.take 3 = [':', '/', '/'] then
      let r3 := rest2.drop 3
      let body := r3.takeWhile urlBodyChar
      if body.isEmpty then none
      else some (cs.take (schemeLen + 3 + body.length), r3.drop body.length)
    else none
  else none

/-- The fence `` ``` `` as a character list. -/
def fenceStr : List Char := [btk, btk, btk]

/-- Find the earliest closing `` ``` `` (the lazy `[\s\S]*?` of the
code-block pattern): returns (text before the fence, text after it). -/
def findFenceClose : List Char → Option (List Char × List Char)
  | [] => none
  | c :: r =>
    if fenceStr.isPrefixOf (c :: r) then some ([], (c :: r).drop 3)
    else (findFenceClose r).map (fun pr => (c :: pr.1, pr.2))

/-- Match the regex `` ```[\s\S]*?```|`[^`]+` `` at the start of `cs`
(first alternative preferred, as in ECMAScript). -/
def matchCodeAt (cs : List Char) : Option (List Char × List Char) :=
  if fenceStr.isPrefixOf cs then
    match findFenceClose (cs.drop 3) with
    | some (mid, rest) => some (fenceStr ++ mid ++ fenceStr, rest)
    | none => none
  else
    match cs with
    | [] => none
    | c :: r =>
      if c = btk then
        if (r.takeWhile (fun d => d ≠ btk)).isEmpty then none
        else
          match r.drop (r.takeWhile (fun d => d ≠ btk)).length with
          | d :: rest2 =>
            if d = btk then some (c :: (r.takeWhile (fun d => d ≠ btk) ++ [d]), rest2)
            else none
          | [] => none
      else none

/-- The URL placeholder stem `__URL_PLACEHOLDER_` (the emitted token is the
stem, a decimal index, then `__`). -/
def urlTokStem : List Char := "__URL_PLACEHOLDER_".data

/-- The code-block placeholder stem `__CODEBLOCK_`. -/
def codeTokStem : List Char := "__CODEBLOCK_".data

/-- The protection scan: `text.replace(pattern, m => { table.push(m);
return stem + index++ + "__" })`.  The running index always equals the
table length, as in the source (push, then post-increment).  The guard
`hr` is always true for the matchers used (a match is nonempty). -/
def protectAux (tokStem : List Char)
    (mtch : List Char → Option (List Char × List Char)) :
    Nat → List Char → List (List Char) → List Char × List (List Char)
  | 0, cs, tbl => (cs, tbl)
  | _ + 1, [], tbl => ([], tbl)
  | f + 1, c :: r, tbl =>
    match mtch (c :: r) with
    | some (m, rest) =>
      if rest.length < r.length + 1 then
        let pr := protectAux tokStem mtch f rest (tbl ++ [m])
        (tokStem ++ natDecimal tbl.length ++ '_' :: '_' :: pr.1, pr.2)
      else
        let pr := protectAux tokStem mtch f r tbl
        (c :: pr.1, pr.2)
    | none =>
      let pr := protectAux tokStem mtch f r tbl
      (c :: pr.1, pr.2)

/-- JS `String(undefined)`: substituted when a placeholder index is outside
the table, as `table[parseInt(i)]` yields `undefined`. -/
def undefStr : List Char := "undefined".data

/-- Match the restoration pattern `STEM(\d+)__` at the start of `cs`
(greedy `\d+`; backtracking is vacuous because a digit is never `_`).
Returns (parsed index, rest). -/
def matchTokenAt (tokStem cs : List Char) : Option (Nat × List Char) :=
  if tokStem.isPrefixOf cs then
    if ((cs.drop tokStem.length).takeWhile Char.isDigit).isEmpty then none
    else
      match (cs.drop tokStem.length).drop
          ((cs.drop tokStem.length).takeWhile Char.isDigit).length with
      | '_' :: '_' :: rest =>
        some (digitsToNat ((cs.drop tokStem.length).takeWhile Char.isDigit), rest)
      | _ => none
  else none

/-- The restoration scan: `text.replace(/STEM(\d+)__/g, (m, i) =>
table[parseInt(i)])`.  The guard `hr` is always true (a token match
consumes at least three characters). -/
def restoreAux (tokStem : List Char) (tbl : List (List Char)) :
    Nat → List Char → List Char
  | 0, cs => cs
  | _ + 1, [] => []
  | f + 1, c :: r =>
    match matchTokenAt tokStem (c :: r) with
    | some (n, rest) =>
      if rest.length < r.length + 1 then
        (tbl[n]?.getD undefStr) ++ restoreAux tokStem tbl f rest
      else c :: restoreAux tokStem tbl f r
    | none => c :: restoreAux tokStem tbl f r

/-- `preprocessor.ts` lines 46-53: protect URLs. -/
def protectUrls (cs : List Char) : List Char × List (List Char) :=
  protectAux urlTokStem matchUrlAt (cs.length + 1) cs []

/-- `preprocessor.ts` lines 59-62: restore URLs. -/
def restoreUrls (tbl : List (List Char)) (cs : List Char) : List Char :=
  restoreAux urlTokStem tbl (cs.length + 1) cs

/-- `preprocessor.ts` lines 149-157: protect code blocks and inline code. -/
def protectCode (cs : List Char) : List Char × List (List Char) :=
  protectAux codeTokStem matchCodeAt (cs.length + 1) cs []

/-- `preprocessor.ts` lines 175-178: restore code blocks. -/
def restoreCode (tbl : List (List Char)) (cs : List Char) : List Char :=
  restoreAux codeTokStem tbl (cs.length + 1) cs

/-- Fix 1, net effect: URLs are protected and immediately restored — the
aggressive bold passes between the two calls are disabled in the source
("Disabled: These aggressive patterns were causing cross-line matching
issues"). -/
def urlRoundStep (cs : List Char) : List Char :=
  let pr := protectUrls cs
  restoreUrls pr.2 pr.1

/-- Fix 7, net effect: code spans are protected, the `literalBoldPattern`
replacement runs on the masked text — but both branches of its callback
`return match`, so it is the identity — and code spans are restored. -/
def codeRoundStep (cs : List Char) : List Char :=
  let pr := protectCode cs
  restoreCode pr.2 pr.1

/-- Does `cs` contain a full token-shaped substring `STEM<digits>__`? -/
def hasTokenShape (tokStem : List Char) : List Char → Bool
  | [] => false
  | c :: r => (matchTokenAt tokStem (c :: r)).isSome || hasTokenShape tokStem r

/- ------------------------------------------------------------------ -/
/- preprocessMarkdown: the normalization passes                       -/
/- ------------------------------------------------------------------ -/

/-- The backslash character. -/
def bsl : Char := '\\'

/-- Fix 0 pattern `\\?\*\\?\*\s*([^*]+?)\s*\\?\*\\?\*`. -/
def fix0RE : RE := rseq
  [RE.opt (rch bsl) false, rch '*', RE.opt (rch bsl) false, rch '*',
   RE.star (RE.cls jsWs) false,
   RE.grp 1 (rplus (RE.cls (fun c => c ≠ '*')) true),
   RE.star (RE.cls jsWs) false,
   RE.opt (rch bsl) false, rch '*', RE.opt (rch bsl) false, rch '*']

/-- Fix 0 callback: repair escaped bold markers when the match contains
`\*`, otherwise leave the match unchanged. -/
def fix0Rp (m : List Char) (cp : Caps) : List Char × List (List Char) :=
  let content := capGet cp 1
  if hasSub [bsl, '*'] m then
    ("**".data ++ trimJS content ++ "**".data,
     ["Fixed escaped bold markers: \"".data ++ m ++ "\" → \"**".data ++
      trimJS content ++ "**\"".data])
  else (m, [])

/-- Fix 1 pattern `\*\*(https?:\/\/[^\*\s]+)\*\*` (bold URLs). -/
def boldUrlRE : RE := rseq
  [rlit "**",
   RE.grp 1 (rseq [rlit "http", RE.opt (rch 's') false, rlit "://",
                   rplus (RE.cls urlBodyChar) false]),
   rlit "**"]

/-- Fix 1: strip bold markers from URLs; one fix if anything changed. -/
def applyBoldUrl (cs : List Char) : List Char × List (List Char) :=
  let o := (reReplace boldUrlRE (fun _ cp => (capGet cp 1, [])) cs).1
  (o, if o ≠ cs then ["Removed bold formatting from URLs".data] else [])

/-- Character class `[^*\n]`. -/
def notStarNl : RE := RE.cls (fun c => c ≠ '*' && c ≠ '\n')

/-- Fix 2 pattern `(?<!\*)\* +([^*\n]+?) +\*(?!\*)`. -/
def ital1RE : RE := rseq
  [RE.npb (fun c => c = '*'), rch '*', rplus (rch ' ') false,
   RE.grp 1 (rplus notStarNl true), rplus (rch ' ') false,
   rch '*', RE.nla (rch '*')]

/-- Fix 2 callback (both-sides spaces). -/
def ital1Rp (_m : List Char) (cp : Caps) : List Char × List (List Char) :=
  let content := capGet cp 1
  ('*' :: trimJS content ++ ['*'],
   ["Fixed italic formatting with spaces: \"".data ++ content ++ "\"".data])

/-- Fix 2 pattern `(?<!\*)\* +([^*\n]+?)\*(?!\*)`. -/
def ital2RE : RE := rseq
  [RE.npb (fun c => c = '*'), rch '*', rplus (rch ' ') false,
   RE.grp 1 (rplus notStarNl true), rch '*', RE.nla (rch '*')]

/-- Fix 2 callback (leading space). -/
def ital2Rp (_m : List Char) (cp : Caps) : List Char × List (List Char) :=
  let content := capGet cp 1
  ('*' :: trimJS content ++ ['*'],
   ["Fixed italic formatting with leading space: \"".data ++ content ++ "\"".data])

/-- Fix 2 pattern `(?<!\*)\*([^*\n]+?) +\*(?!\*)`. -/
def ital3RE : RE := rseq
  [RE.npb (fun c => c = '*'), rch '*',
   RE.grp 1 (rplus notStarNl true), rplus (rch ' ') false,
   rch '*', RE.nla (rch '*')]

/-- Fix 2 callback (trailing space). -/
def ital3Rp (_m : List Char) (cp : Caps) : List Char × List (List Char) :=
  let content := capGet cp 1
  ('*' :: trimJS content ++ ['*'],
   ["Fixed italic formatting with trailing space: \"".data ++ content ++ "\"".data])

/-- Fix 3 pattern `~~ +([^~\n]+?) +~~`. -/
def strikeRE : RE := rseq
  [rlit "~~", rplus (rch ' ') false,
   RE.grp 1 (rplus (RE.cls (fun c => c ≠ '~' && c ≠ '\n')) true),
   rplus (rch ' ') false, rlit "~~"]

/-- Fix 3 callback. -/
def strikeRp (_m : List Char) (cp : Caps) : List Char × List (List Char) :=
  let content := capGet cp 1
  ('~' :: '~' :: trimJS content ++ ['~', '~'],
   ["Fixed strikethrough formatting with spaces: \"".data ++ content ++ "\"".data])

/-- Fix 4 pattern `` `\s+([^`]+?)\s+` ``. -/
def inlineCodeRE : RE := rseq
  [rch btk, rplus (RE.cls jsWs) false,
   RE.grp 1 (rplus (RE.cls (fun c => c ≠ btk)) true),
   rplus (RE.cls jsWs) false, rch btk]

/-- Fix 4 callback: keep intentionally spaced code spans, else strip. -/
def inlineCodeRp (m : List Char) (cp : Caps) : List Char × List (List Char) :=
  let content := capGet cp 1
  if (trimJS content).contains ' ' then (m, [])
  else
    (btk :: trimJS content ++ [btk],
     ["Fixed inline code formatting with extra spaces: \"".data ++ m ++ "\"".data])

/-- Fix 5 heading classifier: `trimmedLine.match(/^(#{1,6})\s+.+/)`,
returning the heading level (the count of leading `#`).  A run of seven or
more `#` never matches (backtracking cannot shorten the run, because the
character after fewer `#` is again `#`). -/
def headingLevelOf (t : List Char) : Option Nat :=
  let h := (t.takeWhile (fun c => c = '#')).length
  if 1 ≤ h ∧ h ≤ 6 then
    let after := t.drop h
    let wsRun := (after.takeWhile jsWs).length
    if 1 ≤ wsRun ∧ (List.range wsRun).any (fun j =>
        match after.drop (j + 1) with
        | c :: _ => c ≠ '\n'
        | [] => false) then
      some h
    else none
  else none

/-- Fix 5 strings. -/
def blankHdrMsg : List Char := "Added blank line before header".data

/-- Fix-record text for a hierarchy demotion. -/
def hierMsg (cur last emitted : Nat) : List Char :=
  "Fixed heading hierarchy: h".data ++ natDecimal cur ++ " after h".data ++
  natDecimal last ++ " → h".data ++ natDecimal emitted

/-- Fix 5 loop (`preprocessor.ts` lines 98-137).  `prev` is the last line
pushed so far (`fixedLines[fixedLines.length - 1]`, `none` when `i = 0`),
`lastLevel` is `lastHeaderLevel`, and the full fix list is threaded to
implement the `fixes.some(...)` de-duplication check. -/
def fix5Go : List (List Char) → Option (List Char) → Nat → List (List Char) →
    List (List Char) × List (List Char)
  | [], _, _, fixes => ([], fixes)
  | line :: rest, prev, lastLevel, fixes =>
    let t := trimJS line
    match headingLevelOf t with
    | some cur =>
      let needBlank := match prev with
        | some p => !(trimJS p).isEmpty
        | none => false
      let fixes1 :=
        if needBlank && !(fixes.any (fun fx => hasSub blankHdrMsg fx)) then
          fixes ++ [blankHdrMsg]
        else fixes
      if lastLevel > 0 ∧ cur > lastLevel + 1 then
        let e := lastLevel + 1
        let newLine := List.replicate e '#' ++ t.drop cur
        let pr := fix5Go rest (some newLine) e (fixes1 ++ [hierMsg cur lastLevel e])
        ((if needBlank then [([] : List Char)] else []) ++ newLine :: pr.1, pr.2)
      else
        let pr := fix5Go rest (some line) cur fixes1
        ((if needBlank then [([] : List Char)] else []) ++ line :: pr.1, pr.2)
    | none =>
      let pr := fix5Go rest (some line) lastLevel fixes
      (line :: pr.1, pr.2)

/-- Fix 5: split into lines, run the scan, re-join. -/
def fixHeaderPass (cs : List Char) (fixes : List (List Char)) :
    List Char × List (List Char) :=
  let pr := fix5Go (List.splitOn '\n' cs) none 0 fixes
  (List.intercalate ['\n'] pr.1, pr.2)

/-- Fix 6 pattern `\n{4,}`. -/
def blank4RE : RE := rseq [rlit "\n\n\n\n", RE.star (rch '\n') false]

/-- Fix 6: collapse runs of four-plus newlines; the fix is recorded when
the split-line count changed. -/
def applyFix6 (cs : List Char) : List Char × List (List Char) :=
  let lc := (List.splitOn '\n' cs).length
  let o := (reReplace blank4RE (fun _ _ => ("\n\n\n".data, [])) cs).1
  (o, if (List.splitOn '\n' o).length ≠ lc then
        ["Removed excessive blank lines (reduced to max 2 consecutive)".data]
      else [])

/-- Fix 8 pattern `([^\n])\n\`\`\``. -/
def fence8aRE : RE := rseq
  [RE.grp 1 (RE.cls (fun c => c ≠ '\n')), rch '\n', RE.str fenceStr]

/-- Fix 8 before-fence message. -/
def fix8aMsg : List Char := "Added blank line before code block".data

/-- Fix 8 pattern `` ```\n([^\n]) ``. -/
def fence8bRE : RE := rseq
  [RE.str fenceStr, rch '\n', RE.grp 1 (RE.cls (fun c => c ≠ '\n'))]

/-- Fix 8 after-fence message. -/
def fix8bMsg : List Char := "Added blank line after code block".data

/-- Fix 9 camel-case pattern `([a-z])([A-Z])`, replaced by `$1 $2`
(no fix is recorded for this one in the source). -/
def camelRE : RE := rseq [RE.grp 1 (RE.cls asciiLower), RE.grp 2 (RE.cls asciiUpper)]

/-- One Fix 9 table entry: global-replace, then a fix naming the pattern
when the text changed (`pattern.toString()`). -/
def applyConcat (re : RE) (rp : List Char → Caps → List Char)
    (msg : List Char) (cs : List Char) (fixes : List (List Char)) :
    List Char × List (List Char) :=
  let o := (reReplace re (fun m cp => (rp m cp, [])) cs).1
  (o, if cs ≠ o then fixes ++ [msg] else fixes)

/-- Fix 9 entry `/\bare(tested|verified|official)/gi` → `are $1`. -/
def concat1RE : RE := rseq
  [RE.wb, rlitCI "are",
   RE.grp 1 (ralt [rlitCI "tested", rlitCI "verified", rlitCI "official"])]

/-- Fix 9 entry `/\b(tested|verified)and\b/gi` → `$1 and`. -/
def concat2RE : RE := rseq
  [RE.wb, RE.grp 1 (ralt [rlitCI "tested", rlitCI "verified"]),
   rlitCI "and", RE.wb]

/-- Fix 9 entry `/\bMost\s*are(official|tested)/gi` → `Most are $1`. -/
def concat3RE : RE := rseq
  [RE.wb, rlitCI "Most", RE.star (RE.cls jsWs) false, rlitCI "are",
   RE.grp 1 (ralt [rlitCI "official", rlitCI "tested"])]

/-- Fix 9 entry `/\breports\s*(Internal|External)/gi` → `reports\n\n$1`. -/
def concat4RE : RE := rseq
  [RE.wb, rlitCI "reports", RE.star (RE.cls jsWs) false,
   RE.grp 1 (ralt [rlitCI "Internal", rlitCI "External"])]

/-- Fix 9 entry matching `systems.` then whitespace then three dashes. -/
def concat5RE : RE := rseq
  [rlit "systems.", RE.star (RE.cls jsWs) false, rlit "---"]

/-- Fix 9 entry `/\b([a-z]{3,})([A-Z][a-z]{2,})/g` → `$1 $2`. -/
def concat6RE : RE := rseq
  [RE.wb,
   RE.grp 1 (rseq [RE.cls asciiLower, RE.cls asciiLower, RE.cls asciiLower,
                   RE.star (RE.cls asciiLower) false]),
   RE.grp 2 (rseq [RE.cls asciiUpper, RE.cls asciiLower, RE.cls asciiLower,
                   RE.star (RE.cls asciiLower) false])]

/-- Fix 10 pattern `^([*+-])\s{2,}` (gm) → `$1 `. -/
def listMarkRE : RE := rseq
  [RE.bol, RE.grp 1 (RE.cls (fun c => c = '*' || c = '+' || c = '-')),
   RE.cls jsWs, RE.cls jsWs, RE.star (RE.cls jsWs) false]

/-- The emoji alternation of Fix 11. -/
def emojiAlt : RE := ralt
  [rlit "⚠️", rlit "⚡", rlit "✅", rlit "❌",
   rlit "🔒", rlit "💡", rlit "📊", rlit "🎯"]

/-- Fix 11 group `(\s*[-*+]\s+)`. -/
def bulletGrp : RE := RE.grp 1 (rseq
  [RE.star (RE.cls jsWs) false,
   RE.cls (fun c => c = '-' || c = '*' || c = '+'),
   rplus (RE.cls jsWs) false])

/-- Fix 11 group `([A-Z]+(?:\s+[A-Z]+)*)`. -/
def capsGrp : RE := RE.grp 3 (rseq
  [rplus (RE.cls asciiUpper) false,
   RE.star (rseq [rplus (RE.cls jsWs) false, rplus (RE.cls asciiUpper) false]) false])

/-- Fix 11 case 1:
`^(\s*[-*+]\s+)\*\*(⚠️|⚡|✅|❌|🔒|💡|📊|🎯)\s*([A-Z]+(?:\s+[A-Z]+)*):\*\*\s+(.+)$` (gm). -/
def alert1RE : RE := rseq
  [RE.bol, bulletGrp, rlit "**", RE.grp 2 emojiAlt,
   RE.star (RE.cls jsWs) false, capsGrp, rch ':', rlit "**",
   rplus (RE.cls jsWs) false,
   RE.grp 4 (rplus (RE.cls (fun c => c ≠ '\n')) false), RE.eol]

/-- Fix 11 case 2 (unclosed bold):
`^(\s*[-*+]\s+)\*\*(⚠️|⚡|✅|❌|🔒|💡|📊|🎯)\s*([A-Z]+(?:\s+[A-Z]+)*):(?!\*)\s+(.+)$` (gm). -/
def alert2RE : RE := rseq
  [RE.bol, bulletGrp, rlit "**", RE.grp 2 emojiAlt,
   RE.star (RE.cls jsWs) false, capsGrp, rch ':', RE.nla (rch '*'),
   rplus (RE.cls jsWs) false,
   RE.grp 4 (rplus (RE.cls (fun c => c ≠ '\n')) false), RE.eol]

/-- Fix 11 cases 1/2 template `$1**$2 $3:**\n  $4`. -/
def alertRp (_m : List Char) (cp : Caps) : List Char × List (List Char) :=
  (capGet cp 1 ++ "**".data ++ capGet cp 2 ++ [' '] ++ capGet cp 3 ++
   ":**\n  ".data ++ capGet cp 4, [])

/-- Fix 11 keyword pattern `^(?!\*\*)(Remember|Note|Important|Warning|Caution):\s+` (gm). -/
def keywordRE : RE := rseq
  [RE.bol, RE.nla (rlit "**"),
   RE.grp 1 (ralt [rlit "Remember", rlit "Note", rlit "Important",
                   rlit "Warning", rlit "Caution"]),
   rch ':', rplus (RE.cls jsWs) false]

/-- Fix 11 keyword template `**$1:** `. -/
def keywordRp (_m : List Char) (cp : Caps) : List Char × List (List Char) :=
  ("**".data ++ capGet cp 1 ++ ":** ".data, [])

/-- Count of `/\*\*/g` matches (leftmost, non-overlapping). -/
def countDStar : List Char → Nat
  | '*' :: '*' :: r => countDStar r + 1
  | _ :: r => countDStar r
  | [] => 0

/-- Count of `/(?<!\*)\*(?!\*)/g` matches: stars with no star neighbour;
the `prevStar` flag tracks the preceding character. -/
def countSingleStar : List Char → Bool → Nat
  | [], _ => 0
  | c :: r, prevStar =>
    let here := c = '*' && !prevStar &&
      (match r with | d :: _ => d ≠ '*' | [] => true)
    (if here then 1 else 0) + countSingleStar r (c = '*')

/-- Warning strings of the source (verbatim, including double spaces). -/
def boldWarnMsg : String :=
  "⚠️  Unbalanced bold markers (**) detected. Please check your markdown."

/-- Unbalanced italic warning. -/
def italicWarnMsg : String :=
  "⚠️  Unbalanced italic markers (*) detected. Please check your markdown."

/-- Unbalanced inline-code warning. -/
def codeWarnMsg : String :=
  "⚠️  Unbalanced inline code markers (`) detected. Please check your markdown."

/-- Escaped-markers warning. -/
def escWarnMsg : String :=
  "ℹ️  Escaped formatting markers detected. If you want actual formatting, remove the backslashes."

/-- The warning block at the end of `preprocessMarkdown`, computed from the
final processed text only. -/
def mkWarnings (p : List Char) : List String :=
  (if countDStar p % 2 ≠ 0 then [boldWarnMsg] else []) ++
  (if countSingleStar p false % 2 ≠ 0 then [italicWarnMsg] else []) ++
  (if p.count btk % 2 ≠ 0 then [codeWarnMsg] else []) ++
  (if hasSub [bsl, '*', bsl, '*'] p || hasSub [bsl, '*'] p then [escWarnMsg] else [])

/-- The full pass pipeline of `preprocessMarkdown` (text and fixes; the
warnings are produced afterwards by `mkWarnings`). -/
def preprocessCore (md : List Char) : List Char × List (List Char) :=
  -- Fix 0: escaped bold markers
  let r0 := reReplace fix0RE fix0Rp md
  let p := r0.1
  let fx := r0.2
  -- Fix 1: unbold URLs, then protect URLs, (disabled passes), restore URLs
  let rb := applyBoldUrl p
  let p := rb.1
  let fx := fx ++ rb.2
  let p := urlRoundStep p
  -- Fix 2: italic spacing (three passes)
  let r2a := reReplace ital1RE ital1Rp p
  let p := r2a.1
  let fx := fx ++ r2a.2
  let r2b := reReplace ital2RE ital2Rp p
  let p := r2b.1
  let fx := fx ++ r2b.2
  let r2c := reReplace ital3RE ital3Rp p
  let p := r2c.1
  let fx := fx ++ r2c.2
  -- Fix 3: strikethrough spacing
  let r3 := reReplace strikeRE strikeRp p
  let p := r3.1
  let fx := fx ++ r3.2
  -- Fix 4: inline-code spacing
  let r4 := reReplace inlineCodeRE inlineCodeRp p
  let p := r4.1
  let fx := fx ++ r4.2
  -- Fix 5: header spacing and hierarchy
  let r5 := fixHeaderPass p fx
  let p := r5.1
  let fx := r5.2
  -- Fix 6: excessive blank lines
  let r6 := applyFix6 p
  let p := r6.1
  let fx := fx ++ r6.2
  -- Fix 7: protect code blocks, identity literal-bold pass, restore
  let p := codeRoundStep p
  -- Fix 8: blank lines around fences (fix recorded once, if absent)
  let r8a := reReplace fence8aRE
    (fun _ cp => (capGet cp 1 ++ '\n' :: '\n' :: fenceStr, [fix8aMsg])) p
  let p := r8a.1
  let fx := if r8a.2 ≠ [] ∧ ¬ fx.contains fix8aMsg then fx ++ [fix8aMsg] else fx
  let r8b := reReplace fence8bRE
    (fun _ cp => (fenceStr ++ '\n' :: '\n' :: capGet cp 1, [fix8bMsg])) p
  let p := r8b.1
  let fx := if r8b.2 ≠ [] ∧ ¬ fx.contains fix8bMsg then fx ++ [fix8bMsg] else fx
  -- Fix 9: camel-case split (no fix recorded), then the concatenation table
  let p := (reReplace camelRE
    (fun _ cp => (capGet cp 1 ++ ' ' :: capGet cp 2, [])) p).1
  let r91 := applyConcat concat1RE
    (fun _ cp => "are ".data ++ capGet cp 1)
    "Fixed concatenated words: /\\bare(tested|verified|official)/gi".data p fx
  let p := r91.1
  let fx := r91.2
  let r92 := applyConcat concat2RE
    (fun _ cp => capGet cp 1 ++ " and".data)
    "Fixed concatenated words: /\\b(tested|verified)and\\b/gi".data p fx
  let p := r92.1
  let fx := r92.2
  let r93 := applyConcat concat3RE
    (fun _ cp => "Most are ".data ++ capGet cp 1)
    "Fixed concatenated words: /\\bMost\\s*are(official|tested)/gi".data p fx
  let p := r93.1
  let fx := r93.2
  let r94 := applyConcat concat4RE
    (fun _ cp => "reports\n\n".data ++ capGet cp 1)
    "Fixed concatenated words: /\\breports\\s*(Internal|External)/gi".data p fx
  let p := r94.1
  let fx := r94.2
  let r95 := applyConcat concat5RE
    (fun _ _ => "systems.\n\n---".data)
    "Fixed concatenated words: /systems\\.\\s*---/g".data p fx
  let p := r95.1
  let fx := r95.2
  let r96 := applyConcat concat6RE
    (fun _ cp => capGet cp 1 ++ ' ' :: capGet cp 2)
    "Fixed concatenated words: /\\b([a-z]{3,})([A-Z][a-z]{2,})/g".data p fx
  let p := r96.1
  let fx := r96.2
  -- Fix 10: list marker spacing
  let p := (reReplace listMarkRE (fun _ cp => (capGet cp 1 ++ [' '], [])) p).1
  -- Fix 11: alert lines and keyword lines
  let p := (reReplace alert1RE alertRp p).1
  let p := (reReplace alert2RE alertRp p).1
  let p := (reReplace keywordRE keywordRp p).1
  (p, fx)

/-- The result record of `preprocessMarkdown`. -/
structure PreprocessResult where
  markdown : String
  fixes : List String
  warnings : List String
deriving DecidableEq, Repr

/-- `preprocessMarkdown` of `preprocessor.ts`: the pass pipeline followed
by the warning computation on the final text. -/
def preprocessMarkdown (markdown : String) : PreprocessResult :=
  let pr := preprocessCore markdown.data
  { markdown := String.mk pr.1
    fixes := pr.2.map String.mk
    warnings := mkWarnings pr.1 }

/- ------------------------------------------------------------------ -/
/- converter.ts: convertMarkdownToPdf                                 -/
/- ------------------------------------------------------------------ -/

/-- `Buffer.byteLength(s, "utf8")`: the UTF-8 byte size of a string. -/
def byteLenUtf8 (cs : List Char) : Nat := (cs.map Char.utf8Size).sum

/-- `markdown.split("\n").length`. -/
def lineCountOf (cs : List Char) : Nat := (List.splitOn '\n' cs).length

/-- Case-insensitive substring test (for `/```mermaid/i.test(markdown)`). -/
def hasSubCI (pat : List Char) : List Char → Bool
  | [] => pat.isEmpty
  | c :: r =>
    ((c :: r).take pat.length).map Char.toLower == pat.map Char.toLower ||
    hasSubCI pat r

/-- `hasMermaidDiagrams` of `converter.ts`: `/```mermaid/i.test(markdown)`. -/
def hasMermaidDiagrams (cs : List Char) : Bool :=
  hasSubCI (fenceStr ++ "mermaid".data) cs

/-- The timeout computation of `convertMarkdownToPdf` (lines 155-161):
base 30s, plus `min(lineCount * 10, 270000)`, plus 30s when mermaid
diagrams are present. -/
def timeoutFor (lineCount : Nat) (containsMermaid : Bool) : Nat :=
  let baseTimeout := 30000
  let additionalTimeout := min (lineCount * 10) 270000
  let mermaidTimeout := if containsMermaid then 30000 else 0
  baseTimeout + additionalTimeout + mermaidTimeout

/-- The 10 MB content-size bound (`10 * 1024 * 1024`). -/
def sizeLimit : Nat := 10 * 1024 * 1024

/-- Outcome of one awaited step inside the `try` block: it either resolves
or throws with a message. -/
inductive StepR where
  | ok : StepR
  | err : String → StepR
deriving DecidableEq, Repr

/-- The environment of one conversion: which awaited step throws (the
`await browser.close()` of the `finally` block included), the page
count the PDF scan would report, and the elapsed wall-clock time that
`Date.now() - startTime` yields at the return points. -/
structure RenderEnv where
  mkdirR : StepR
  parseR : StepR
  launchR : StepR
  newPageR : StepR
  viewportR : StepR
  setContentR : StepR
  fontsR : StepR
  mermaidWaitR : StepR
  pdfR : StepR
  readR : StepR
  closeR : StepR
  pageCountV : Nat
  elapsed : Nat
deriving DecidableEq, Repr

/-- The `ConvertResult` record of `converter.ts` (optional fields are
`Option`; absent means the source leaves the field `undefined`). -/
structure ConvertResult where
  success : Bool
  outputPath : String
  pageCount : Option Nat
  contentSize : Option Nat
  lineCount : Option Nat
  processingTimeMs : Option Nat
  hasMermaid : Option Bool
  error : Option String
deriving DecidableEq, Repr

/-- What happened to the rendering session: whether a browser was
launched, whether `close()` was invoked on it
(`finally { if (browser) await browser.close() }`), and whether that
close resolved (the session is actually gone). -/
structure RenderTrace where
  created : Bool
  closeCalled : Bool
  closed : Bool
  timeoutUsed : Option Nat
deriving DecidableEq, Repr

/-- The result of the `catch` block: structured failure with the thrown
message and the elapsed time. -/
def catchResult (outputPath : String) (msg : String) (elapsed : Nat) : ConvertResult :=
  { success := false, outputPath := outputPath, pageCount := none,
    contentSize := none, lineCount := none, processingTimeMs := some elapsed,
    hasMermaid := none, error := some msg }

/-- The `finally` block once a browser exists:
`finally { if (browser) { await browser.close(); } }`.  When `close()`
resolves, the pending result `r` (a return or a caught failure) is
delivered; when `close()` rejects, JavaScript discards `r` and the
rejection propagates past the function boundary, the session left
unclosed. -/
def closeWrap (r : ConvertResult) (env : RenderEnv) (timeout : Nat) :
    Except String ConvertResult × RenderTrace :=
  match env.closeR with
  | .ok => (.ok r, ⟨true, true, true, some timeout⟩)
  | .err cm => (.error cm, ⟨true, true, false, some timeout⟩)

/-- `convertMarkdownToPdf` of `converter.ts`, embedded over a `RenderEnv`.
Validation runs first (returning without `processingTimeMs`, exactly as the
source does); then the awaited steps run in source order inside the
`try`; any throw is caught and turned into a structured failure; the
mermaid wait has its own inner `try` whose failure is only logged; the
`finally` awaits `browser.close()` whenever a browser was launched, so
every exit past the launch goes through `closeWrap` — and a rejection of
that close escapes the function (`Except.error`). -/
def convertMarkdownToPdf (markdown outputPath : String) (env : RenderEnv) :
    Except String ConvertResult × RenderTrace :=
  let md := markdown.data
  -- if (!markdown || markdown.trim().length === 0)
  if md.isEmpty || (trimJS md).isEmpty then
    (.ok { success := false, outputPath := outputPath, pageCount := none,
           contentSize := none, lineCount := none, processingTimeMs := none,
           hasMermaid := none, error := some "Markdown content is empty" },
     ⟨false, false, false, none⟩)
  else
  let contentSize := byteLenUtf8 md
  -- if (contentSize > 10 * 1024 * 1024)
  if contentSize > sizeLimit then
    (.ok { success := false, outputPath := outputPath, pageCount := none,
           contentSize := none, lineCount := none, processingTimeMs := none,
           hasMermaid := none, error := some "Markdown content exceeds 10MB limit" },
     ⟨false, false, false, none⟩)
  else
  let lineCount := lineCountOf md
  let containsMermaid := hasMermaidDiagrams md
  -- fs.existsSync / fs.mkdirSync
  match env.mkdirR with
  | .err m => (.ok (catchResult outputPath m env.elapsed), ⟨false, false, false, none⟩)
  | .ok =>
  -- await marked.parse(markdown)
  match env.parseR with
  | .err m => (.ok (catchResult outputPath m env.elapsed), ⟨false, false, false, none⟩)
  | .ok =>
  let timeout := timeoutFor lineCount containsMermaid
  -- await puppeteer.launch(...): on throw, `browser` stays null and the
  -- finally block does nothing
  match env.launchR with
  | .err m => (.ok (catchResult outputPath m env.elapsed), ⟨false, false, false, some timeout⟩)
  | .ok =>
  -- browser is now set; every exit below runs the finally (closeWrap)
  match env.newPageR with
  | .err m => closeWrap (catchResult outputPath m env.elapsed) env timeout
  | .ok =>
  match env.viewportR with
  | .err m => closeWrap (catchResult outputPath m env.elapsed) env timeout
  | .ok =>
  match env.setContentR with
  | .err m => closeWrap (catchResult outputPath m env.elapsed) env timeout
  | .ok =>
  match env.fontsR with
  | .err m => closeWrap (catchResult outputPath m env.elapsed) env timeout
  | .ok =>
  -- if (containsMermaid) { try { await page.waitForFunction(...) } catch {} }
  -- a mermaid timeout is only logged; execution continues either way
  match env.pdfR with
  | .err m => closeWrap (catchResult outputPath m env.elapsed) env timeout
  | .ok =>
  match env.readR with
  | .err m => closeWrap (catchResult outputPath m env.elapsed) env timeout
  | .ok =>
  closeWrap
    { success := true, outputPath := outputPath,
      pageCount := some env.pageCountV, contentSize := some contentSize,
      lineCount := some lineCount, processingTimeMs := some env.elapsed,
      hasMermaid := some containsMermaid, error := none }
    env timeout

/-- An all-ok environment for witnesses. -/
def envOk : RenderEnv :=
  { mkdirR := .ok, parseR := .ok, launchR := .ok, newPageR := .ok,
    viewportR := .ok, setContentR := .ok, fontsR := .ok, mermaidWaitR := .ok,
    pdfR := .ok, readR := .ok, closeR := .ok, pageCountV := 1, elapsed := 42 }

/- ------------------------------------------------------------------ -/
/- converter.ts: the marked renderer for mermaid blocks               -/
/- ------------------------------------------------------------------ -/

/-- One `text.replace(/c/g, rep)` pass where `c` is a single character and
`rep` a literal replacement (replacements are not rescanned). -/
def replaceAllCh (c : Char) (rep : List Char) : List Char → List Char
  | [] => []
  | d :: r => (if d = c then rep else [d]) ++ replaceAllCh c rep r

/-- The escaping chain of the mermaid branch of the `code` renderer:
`&`→`&amp;`, `<`→`&lt;`, `>`→`&gt;`, `"`→`&quot;`, `'`→`&#039;`,
applied in that order. -/
def escapeMermaid (cs : List Char) : List Char :=
  replaceAllCh (Char.ofNat 39) "&#039;".data
    (replaceAllCh '"' "&quot;".data
      (replaceAllCh '>' "&gt;".data
        (replaceAllCh '<' "&lt;".data
          (replaceAllCh '&' "&amp;".data cs))))

/-- Per-character escaping specification (what the chain amounts to). -/
def escChar (c : Char) : List Char :=
  if c = '&' then "&amp;".data
  else if c = '<' then "&lt;".data
  else if c = '>' then "&gt;".data
  else if c = '"' then "&quot;".data
  else if c = Char.ofNat 39 then "&#039;".data
  else [c]

/-- The mermaid branch of the `code` renderer:
`<div class="mermaid">` + escaped source + `</div>`. -/
def renderMermaidBlock (text : String) : String :=
  String.mk ("<div class=\"mermaid\">".data ++ escapeMermaid text.data ++ "</div>".data)

/- ------------------------------------------------------------------ -/
/- Observation helpers used by the theorems                           -/
/- ------------------------------------------------------------------ -/

/-- All matches of a span matcher in a text, in order (used to observe the
code spans or URLs of a text with the same patterns the source uses). -/
def extractSpans (mtch : List Char → Option (List Char × List Char)) :
    Nat → List Char → List (List Char)
  | 0, _ => []
  | _ + 1, [] => []
  | f + 1, c :: r =>
    match mtch (c :: r) with
    | some (m, rest) =>
      if rest.length < r.length + 1 then m :: extractSpans mtch f rest
      else extractSpans mtch f r
    | none => extractSpans mtch f r

/-- The code spans of a text (matches of the Fix 7 pattern). -/
def codeSpansOf (s : String) : List (List Char) :=
  extractSpans matchCodeAt (s.data.length + 1) s.data

/-- The URLs of a text (matches of the Fix 1 protection pattern). -/
def urlSpansOf (s : String) : List (List Char) :=
  extractSpans matchUrlAt (s.data.length + 1) s.data

/-- The heading levels of a line list, via the Fix 5 classifier. -/
def headingLevels (lines : List (List Char)) : List Nat :=
  lines.filterMap (fun l => headingLevelOf (trimJS l))

/-- Is a fix record produced by the word-concatenation heuristics (Fix 9)?
All and only those fixes start with `Fixed concatenated words:`. -/
def isConcatFix (f : String) : Bool :=
  "Fixed concatenated words:".data.isPrefixOf f.data

/- ------------------------------------------------------------------ -/
/- Helper lemmas                                                      -/
/- ------------------------------------------------------------------ -/

theorem isPre_ex : ∀ (a b : List Char), a.isPrefixOf b = true ↔ ∃ t, b = a ++ t
  | [], b => by simp [List.isPrefixOf]
  | _ :: _, [] => by simp [List.isPrefixOf]
  | a :: as, b :: bs => by
    simp only [List.isPrefixOf, Bool.and_eq_true, beq_iff_eq]
    rw [isPre_ex as bs]
    constructor
    · rintro ⟨rfl, t, rfl⟩; exact ⟨t, rfl⟩
    · rintro ⟨t, ht⟩
      injection ht with h1 h2
      exact ⟨h1.symm, t, h2⟩

theorem hasSub_of_pre {pat cs : List Char} (h : pat.isPrefixOf cs = true) :
    hasSub pat cs = true := by
  cases cs <;> simp [hasSub, h]

theorem hasSub_tail {pat c r} (h : hasSub pat (c :: r) = false) :
    hasSub pat r = false := by
  simp only [hasSub, Bool.or_eq_false_iff] at h
  exact h.2

theorem hasSub_append_right {pat ys : List Char} : ∀ (xs : List Char),
    hasSub pat (xs ++ ys) = false → hasSub pat ys = false
  | [], h => h
  | _ :: xs, h => hasSub_append_right xs (hasSub_tail h)

theorem natDecimalAux_shift : ∀ (f n : Nat) (acc : List Char),
    natDecimalAux f n acc = natDecimalAux f n [] ++ acc
  | 0, _, _ => rfl
  | _ + 1, 0, _ => rfl
  | f + 1, n + 1, acc => by
    show natDecimalAux f ((n + 1) / 10) (_ :: acc) = natDecimalAux f ((n + 1) / 10) [_] ++ acc
    rw [natDecimalAux_shift f _ (_ :: acc), natDecimalAux_shift f _ [_]]
    simp

theorem natDecimalAux_fuel : ∀ (n : Nat), ∀ (f g : Nat), n ≤ f → n ≤ g →
    natDecimalAux f n [] = natDecimalAux g n []
  | 0, f, g, _, _ => by cases f <;> cases g <;> rfl
  | n + 1, f, g, hf, hg => by
    obtain ⟨f, rfl⟩ : ∃ f2, f = f2 + 1 := ⟨f - 1, by omega⟩
    obtain ⟨g, rfl⟩ : ∃ g2, g = g2 + 1 := ⟨g - 1, by omega⟩
    show natDecimalAux f ((n + 1) / 10) [_] = natDecimalAux g ((n + 1) / 10) [_]
    rw [natDecimalAux_shift f, natDecimalAux_shift g,
        natDecimalAux_fuel ((n + 1) / 10) f g (by omega) (by omega)]
  termination_by n => n
  decreasing_by exact Nat.div_lt_self (by omega) (by omega)

/-- Unfolding step of `natDecimal` for a positive argument. -/
theorem natDecimal_step (n : Nat) (h : n ≠ 0) :
    natDecimal n = (if n / 10 = 0 then [] else natDecimal (n / 10)) ++
      [Char.ofNat (48 + n % 10)] := by
  obtain ⟨m, rfl⟩ : ∃ m, n = m + 1 := ⟨n - 1, by omega⟩
  show natDecimalAux (m + 1) (m + 1) [] = _
  rw [show natDecimalAux (m + 1) (m + 1) [] =
      natDecimalAux m ((m + 1) / 10) [Char.ofNat (48 + (m + 1) % 10)] from rfl,
    natDecimalAux_shift]
  by_cases hq : (m + 1) / 10 = 0
  · rw [hq, if_pos rfl]; cases m <;> rfl
  · rw [if_neg hq]
    unfold natDecimal
    rw [if_neg hq, natDecimalAux_fuel ((m + 1) / 10) m _ (by omega) le_rfl]

theorem digit_char_isDigit {r : Nat} (h : r < 10) :
    (Char.ofNat (48 + r)).isDigit = true := by
  interval_cases r <;> decide

theorem digit_char_toNat {r : Nat} (h : r < 10) :
    (Char.ofNat (48 + r)).toNat = 48 + r := by
  interval_cases r <;> decide

theorem natDecimal_digits : ∀ (n : Nat), ∀ c ∈ natDecimal n, c.isDigit = true := by
  intro n
  induction n using Nat.strong_induction_on with
  | _ n ih =>
    by_cases h : n = 0
    · subst h; intro c hc; simp [natDecimal] at hc; subst hc; decide
    · rw [natDecimal_step n h]
      intro c hc
      rcases List.mem_append.1 hc with hc | hc
      · by_cases hq : n / 10 = 0
        · simp [hq] at hc
        · rw [if_neg hq] at hc
          exact ih (n / 10) (Nat.div_lt_self (by omega) (by omega)) c hc
      · simp at hc; subst hc
        exact digit_char_isDigit (Nat.mod_lt _ (by omega))

theorem natDecimal_ne_nil (n : Nat) : natDecimal n ≠ [] := by
  by_cases h : n = 0
  · subst h; decide
  · rw [natDecimal_step n h]; simp

theorem digitsToNat_natDecimal : ∀ (n : Nat), digitsToNat (natDecimal n) = n := by
  intro n
  induction n using Nat.strong_induction_on with
  | _ n ih =>
    by_cases h : n = 0
    · subst h; decide
    · rw [natDecimal_step n h]
      unfold digitsToNat
      rw [List.foldl_append]
      have hlast : ∀ (a : Nat),
          List.foldl (fun a c => a * 10 + (c.toNat - 48)) a [Char.ofNat (48 + n % 10)] =
            a * 10 + n % 10 := by
        intro a
        simp [List.foldl, digit_char_toNat (Nat.mod_lt n (show 0 < 10 by omega))]
      rw [hlast]
      by_cases hq : n / 10 = 0
      · simp [hq]; omega
      · rw [if_neg hq]
        have := ih (n / 10) (Nat.div_lt_self (by omega) (by omega))
        unfold digitsToNat at this
        rw [this]
        omega

theorem takeWhile_append_all {p : Char → Bool} : ∀ (xs ys : List Char),
    (∀ x ∈ xs, p x = true) →
    List.takeWhile p (xs ++ ys) = xs ++ List.takeWhile p ys
  | [], _, _ => by simp
  | x :: xs, ys, h => by
    have hx : p x = true := h x (by simp)
    simp only [List.cons_append, List.takeWhile_cons, hx, if_true]
    rw [takeWhile_append_all xs ys (fun a ha => h a (by simp [ha]))]

theorem takeWhile_cons_neg {p : Char → Bool} {y : Char} (ys : List Char)
    (h : p y = false) : List.takeWhile p (y :: ys) = [] := by
  simp [List.takeWhile_cons, h]

theorem getElem?_append_middle (l : List (List Char)) (a : List Char)
    (e : List (List Char)) : (l ++ a :: e)[l.length]? = some a := by
  rw [List.getElem?_append_right (le_refl l.length)]
  simp

theorem takeWhile_append_drop (p : Char → Bool) : ∀ (l : List Char),
    l.takeWhile p ++ l.drop (l.takeWhile p).length = l
  | [] => rfl
  | c :: r => by
    by_cases hc : p c
    · simp only [List.takeWhile_cons, hc, if_true, List.length_cons, List.drop_succ_cons,
        List.cons_append, List.cons.injEq, true_and]
      exact takeWhile_append_drop p r
    · simp [List.takeWhile_cons, hc]

theorem matchUrlAt_sound {cs m r : List Char} (h : matchUrlAt cs = some (m, r)) :
    m ≠ [] ∧ cs = m ++ r := by
  simp only [matchUrlAt] at h
  split at h
  case isFalse => simp at h
  case isTrue h4 =>
    set sl := (if (cs.drop 4).take 1 = ['s'] then (5 : Nat) else 4) with hsl
    split at h
    case isFalse => simp at h
    case isTrue h3 =>
      split at h
      case isTrue => simp at h
      case isFalse hbe =>
        simp only [Option.some.injEq, Prod.mk.injEq] at h
        obtain ⟨hm, hr⟩ := h
        have hcs : cs ≠ [] := by
          intro hnil; rw [hnil] at h4; simp at h4
        constructor
        · rw [← hm]
          intro hnil
          rw [List.take_eq_nil_iff] at hnil
          rcases hnil with hnil | hnil
          · omega
          · exact hcs hnil
        · rw [← hm, ← hr]
          have e1 : (cs.drop sl).drop 3 = cs.drop (sl + 3) := by
            rw [List.drop_drop]
          rw [e1, List.drop_drop]
          exact (List.take_append_drop _ _).symm

theorem findFenceClose_spec : ∀ (cs mid rest : List Char),
    findFenceClose cs = some (mid, rest) → cs = mid ++ fenceStr ++ rest
  | [], _, _, h => by simp [findFenceClose] at h
  | c :: r, mid, rest, h => by
    unfold findFenceClose at h
    split at h
    case isTrue hp =>
      simp only [Option.some.injEq, Prod.mk.injEq] at h
      obtain ⟨hm, hr⟩ := h
      obtain ⟨t, ht⟩ := (isPre_ex _ _).1 hp
      have hdrop : (c :: r).drop 3 = t := by
        rw [ht, show (3 : Nat) = fenceStr.length from rfl, List.drop_left]
      rw [← hm, ← hr, hdrop, ht]
      simp
    case isFalse hp =>
      cases hfc : findFenceClose r with
      | none => rw [hfc] at h; simp at h
      | some pr =>
        obtain ⟨m2, r2⟩ := pr
        rw [hfc] at h
        simp at h
        obtain ⟨hm, hr⟩ := h
        have := findFenceClose_spec r m2 r2 hfc
        rw [← hm, ← hr, this]
        simp

theorem matchCodeAt_sound {cs m r : List Char} (h : matchCodeAt cs = some (m, r)) :
    m ≠ [] ∧ cs = m ++ r := by
  unfold matchCodeAt at h
  split at h
  case isTrue hp =>
    split at h
    case h_1 mid rest hfc =>
      simp only [Option.some.injEq, Prod.mk.injEq] at h
      obtain ⟨hm, hr⟩ := h
      obtain ⟨t, ht⟩ := (isPre_ex _ _).1 hp
      have hdrop : cs.drop 3 = t := by
        rw [ht, show (3 : Nat) = fenceStr.length from rfl, List.drop_left]
      have hspec := findFenceClose_spec _ _ _ hfc
      rw [hdrop] at hspec
      constructor
      · rw [← hm]; simp [fenceStr]
      · rw [← hm, ← hr, ht, hspec]; simp
    case h_2 => simp at h
  case isFalse hp =>
    split at h
    case h_1 => simp at h
    case h_2 c cr =>
      split at h
      case isTrue hc =>
        split at h
        case isTrue => simp at h
        case isFalse hbe =>
          split at h
          case h_1 d rest2 hdr =>
            split at h
            case isTrue hd =>
              simp only [Option.some.injEq, Prod.mk.injEq] at h
              obtain ⟨hm, hr⟩ := h
              have hsplit : cr = cr.takeWhile (fun d => d ≠ btk) ++ d :: rest2 := by
                conv_lhs => rw [← takeWhile_append_drop (fun d => d ≠ btk) cr]
                rw [hdr]
              rw [← hm, ← hr]
              refine ⟨by simp, ?_⟩
              rw [List.cons_append, List.append_assoc]
              congr 1
            case isFalse => simp at h
          case h_2 hdr => simp at h
      case isFalse hc => simp at h

/- ------------------------------------------------------------------ -/
/- Claim theorems                                                     -/
/- ------------------------------------------------------------------ -/

/-- C6: the render timeout equals
`30000 + min (lineCount * 10) 270000 + (30000 if diagrams else 0)` ms, is
monotonically non-decreasing in the line count, and is bounded above by
330000 ms. -/
theorem timeout_model_monotone_bounded :
    (∀ (n : Nat) (m : Bool),
      timeoutFor n m = 30000 + min (n * 10) 270000 + (if m then 30000 else 0)) ∧
    (∀ (a b : Nat) (m : Bool), a < b → timeoutFor a m ≤ timeoutFor b m) ∧
    (∀ (n : Nat) (m : Bool), timeoutFor n m ≤ 330000) := by
  refine ⟨fun n m => rfl, fun a b m h => ?_, fun n m => ?_⟩
  · cases m <;> simp [timeoutFor] <;> omega
  · cases m <;> simp [timeoutFor] <;> omega

/-- Witness for C6 at concrete line counts 3 < 5 with diagrams present. -/
theorem timeout_model_monotone_bounded_witness :
    timeoutFor 3 true ≤ timeoutFor 5 true ∧ timeoutFor 5 true ≤ 330000 :=
  ⟨timeout_model_monotone_bounded.2.1 3 5 true (by decide),
   timeout_model_monotone_bounded.2.2 5 true⟩

theorem replaceAllCh_append (c : Char) (rep : List Char) :
    ∀ (xs ys : List Char),
      replaceAllCh c rep (xs ++ ys) = replaceAllCh c rep xs ++ replaceAllCh c rep ys
  | [], _ => rfl
  | x :: xs, ys => by
    simp only [List.cons_append, replaceAllCh]
    rw [show xs.append ys = xs ++ ys from rfl,
        replaceAllCh_append c rep xs ys, List.append_assoc]

theorem escapeMermaid_flatMap : ∀ (cs : List Char),
    escapeMermaid cs = cs.flatMap escChar
  | [] => rfl
  | c :: r => by
    rw [List.flatMap_cons, ← escapeMermaid_flatMap r]
    unfold escapeMermaid
    rw [show replaceAllCh '&' "&amp;".data (c :: r) =
        replaceAllCh '&' "&amp;".data [c] ++ replaceAllCh '&' "&amp;".data r by
      rw [← replaceAllCh_append]; rfl]
    rw [replaceAllCh_append, replaceAllCh_append, replaceAllCh_append, replaceAllCh_append]
    congr 1
    by_cases h1 : c = '&'
    · subst h1; rfl
    by_cases h2 : c = '<'
    · subst h2; rfl
    by_cases h3 : c = '>'
    · subst h3; rfl
    by_cases h4 : c = '"'
    · subst h4; rfl
    by_cases h5 : c = Char.ofNat 39
    · subst h5; rfl
    · simp only [replaceAllCh, escChar, if_neg h1, if_neg h2, if_neg h3, if_neg h4, if_neg h5,
        List.append_nil]

/-- C10: the mermaid branch of the `code` renderer HTML-escapes the diagram
source character by character (`&`→`&amp;`, `<`→`&lt;`, `>`→`&gt;`,
`"`→`&quot;`, `'`→`&#039;`) inside the `<div class="mermaid">` element, so
the emitted text contains none of `<`, `>`, `"`, `'`. -/
theorem mermaid_escaped_in_div (t : String) :
    renderMermaidBlock t =
      String.mk ("<div class=\"mermaid\">".data ++ t.data.flatMap escChar ++ "</div>".data) ∧
    (escapeMermaid t.data).all
      (fun c => !(c = '<' || c = '>' || c = '"' || c = Char.ofNat 39)) = true := by
  constructor
  · unfold renderMermaidBlock
    rw [escapeMermaid_flatMap]
  · rw [List.all_eq_true]
    intro c hc
    rw [escapeMermaid_flatMap, List.mem_flatMap] at hc
    obtain ⟨d, _, hd⟩ := hc
    unfold escChar at hd
    split_ifs at hd with h1 h2 h3 h4 h5
    · fin_cases hd <;> decide
    · fin_cases hd <;> decide
    · fin_cases hd <;> decide
    · fin_cases hd <;> decide
    · fin_cases hd <;> decide
    · simp at hd
      subst hd
      simp only [Bool.not_eq_true', Bool.or_eq_false_iff]
      refine ⟨⟨⟨?_, ?_⟩, ?_⟩, ?_⟩ <;> simp [h2, h3, h4, h5]

/-- Empty content implies empty trim. -/
theorem trimJS_nil : trimJS [] = [] := rfl

/-- C3: a conversion request whose markdown is empty or whitespace-only, or
whose UTF-8 byte size exceeds 10 MiB, fails (success = false) before any
browser is created; in the size case (non-blank content) the error message
contains "exceeds". -/
theorem validation_gate (md path : String) (env : RenderEnv) :
    ((trimJS md.data).isEmpty = true →
      ∃ r, (convertMarkdownToPdf md path env).1 = .ok r ∧ r.success = false ∧
      (convertMarkdownToPdf md path env).2.created = false) ∧
    ((trimJS md.data).isEmpty = false → byteLenUtf8 md.data > sizeLimit →
      ∃ r, (convertMarkdownToPdf md path env).1 = .ok r ∧ r.success = false ∧
      (convertMarkdownToPdf md path env).2.created = false ∧
      hasSub "exceeds".data (r.error.getD "").data = true) := by
  constructor
  · intro ht
    have hcond : (md.data.isEmpty || (trimJS md.data).isEmpty) = true := by simp [ht]
    have h1 : convertMarkdownToPdf md path env =
        (.ok { success := false, outputPath := path, pageCount := none,
               contentSize := none, lineCount := none, processingTimeMs := none,
               hasMermaid := none, error := some "Markdown content is empty" },
         ⟨false, false, false, none⟩) := by
      simp only [convertMarkdownToPdf, hcond, if_true]
    exact ⟨_, by rw [h1], rfl, by rw [h1]⟩
  · intro ht hs
    have hme : md.data.isEmpty = false := by
      cases hmd : md.data with
      | nil => rw [hmd] at ht; simp [trimJS_nil] at ht
      | cons a b => rfl
    have hcond : (md.data.isEmpty || (trimJS md.data).isEmpty) = false := by
      simp [hme, ht]
    have h1 : convertMarkdownToPdf md path env =
        (.ok { success := false, outputPath := path, pageCount := none,
               contentSize := none, lineCount := none, processingTimeMs := none,
               hasMermaid := none, error := some "Markdown content exceeds 10MB limit" },
         ⟨false, false, false, none⟩) := by
      simp only [convertMarkdownToPdf, hcond, Bool.false_eq_true, if_false, hs, if_true,
        gt_iff_lt]
    exact ⟨_, by rw [h1], rfl, by rw [h1], by rfl⟩

theorem dropWhile_replicate_not {p : Char → Bool} {a : Char} (h : p a = false) :
    ∀ n, (List.replicate n a).dropWhile p = List.replicate n a
  | 0 => rfl
  | n + 1 => by simp [List.replicate_succ, List.dropWhile_cons, h]

theorem trimJS_replicate {a : Char} (h : jsWs a = false) (n : Nat) :
    trimJS (List.replicate n a) = List.replicate n a := by
  unfold trimJS
  rw [dropWhile_replicate_not h, List.reverse_replicate, dropWhile_replicate_not h,
      List.reverse_replicate]

theorem replicate_isEmpty_false (n : Nat) (a : Char) (h : n ≠ 0) :
    (List.replicate n a).isEmpty = false := by
  cases n with
  | zero => exact absurd rfl h
  | succ m => rw [List.replicate_succ]; rfl

theorem byteLenUtf8_replicate_a (n : Nat) :
    byteLenUtf8 (List.replicate n 'a') = n := by
  unfold byteLenUtf8
  rw [List.map_replicate, show Char.utf8Size 'a' = 1 from rfl, List.sum_replicate]
  simp

/-- Witness for C3: an 11 MiB all-`a` document is rejected with an
"exceeds" error and no browser; a whitespace-only document is rejected
with no browser. -/
theorem validation_gate_witness :
    (∃ r, (convertMarkdownToPdf (String.mk (List.replicate 11534336 'a')) "out.pdf" envOk).1 = .ok r ∧
     r.success = false ∧
     (convertMarkdownToPdf (String.mk (List.replicate 11534336 'a')) "out.pdf" envOk).2.created = false ∧
     hasSub "exceeds".data ((r.error.getD "").data) = true) ∧
    (∃ r, (convertMarkdownToPdf "   " "out.pdf" envOk).1 = .ok r ∧ r.success = false ∧
     (convertMarkdownToPdf "   " "out.pdf" envOk).2.created = false) := by
  have hdata : (String.mk (List.replicate 11534336 'a')).data = List.replicate 11534336 'a' := rfl
  have h1 : (trimJS (String.mk (List.replicate 11534336 'a')).data).isEmpty = false := by
    rw [hdata, trimJS_replicate (by decide)]
    exact replicate_isEmpty_false _ _ (by decide)
  have h2 : byteLenUtf8 (String.mk (List.replicate 11534336 'a')).data > sizeLimit := by
    rw [hdata, byteLenUtf8_replicate_a]
    decide
  exact ⟨(validation_gate (String.mk (List.replicate 11534336 'a')) "out.pdf" envOk).2 h1 h2,
         (validation_gate "   " "out.pdf" envOk).1 (by decide)⟩

/-- A failing-launch environment for the C4 witness. -/
def envLaunchFail : RenderEnv :=
  { envOk with launchR := .err "net::ERR_FAILED" }

/-- An environment whose final `browser.close()` rejects. -/
def envCloseFail : RenderEnv :=
  { envOk with closeR := .err "Protocol error: close failed" }

/-- Counterexample for C4, twice over: (a) the empty-content validation
failure returns an error with no elapsed time (`processingTimeMs` is left
undefined by the source), contradicting "every failure reports the
elapsed time"; (b) when the `await browser.close()` of the `finally`
block rejects, the rejection escapes the function instead of a structured
`ConvertResult` and the created session is never successfully closed,
contradicting "never raises past its boundary" and "closed on every exit
path". -/
theorem convert_result_counterexample :
    ((convertMarkdownToPdf "" "p" envOk).1 =
      .ok { success := false, outputPath := "p", pageCount := none,
            contentSize := none, lineCount := none, processingTimeMs := none,
            hasMermaid := none, error := some "Markdown content is empty" }) ∧
    (convertMarkdownToPdf "hi" "p" envCloseFail).1 =
      .error "Protocol error: close failed" ∧
    (convertMarkdownToPdf "hi" "p" envCloseFail).2.created = true ∧
    (convertMarkdownToPdf "hi" "p" envCloseFail).2.closed = false := by
  exact ⟨rfl, rfl, rfl, rfl⟩

theorem closeWrap_closeCalled (r : ConvertResult) (env : RenderEnv) (t : Nat) :
    (closeWrap r env t).2.closeCalled = true := by
  unfold closeWrap
  cases env.closeR <;> rfl

theorem closeWrap_created (r : ConvertResult) (env : RenderEnv) (t : Nat) :
    (closeWrap r env t).2.created = true := by
  unfold closeWrap
  cases env.closeR <;> rfl

theorem closeWrap_error_iff (r : ConvertResult) (env : RenderEnv) (t : Nat) (e : String) :
    ((closeWrap r env t).1 = .error e) ↔ env.closeR = .err e := by
  unfold closeWrap
  cases env.closeR <;> simp

theorem closeWrap_ok_iff (r : ConvertResult) (env : RenderEnv) (t : Nat) (q : ConvertResult) :
    ((closeWrap r env t).1 = .ok q) ↔ (env.closeR = .ok ∧ q = r) := by
  unfold closeWrap
  cases env.closeR <;> simp
  exact eq_comm

theorem closeWrap_closed_of_ok (r : ConvertResult) (env : RenderEnv) (t : Nat)
    (h : env.closeR = .ok) : (closeWrap r env t).2.closed = true := by
  unfold closeWrap
  rw [h]

/-- C4 (amended): `close()` is invoked on exactly the exit paths where a
browser was created; the function escapes with an exception only when
that final `close()` itself rejects (otherwise it returns a structured
result); whenever `close()` resolves, the session is closed exactly when
it was created and the result is a structured `ConvertResult` in which
every failure carries a human-readable error string, success carries the
elapsed time and no error, and every post-validation failure (the
exception paths) carries the elapsed time — validation failures omit it. -/
theorem convert_structured_teardown (md path : String) (env : RenderEnv) :
    ((convertMarkdownToPdf md path env).2.closeCalled =
      (convertMarkdownToPdf md path env).2.created) ∧
    (∀ e, (convertMarkdownToPdf md path env).1 = .error e →
      env.closeR = .err e ∧ (convertMarkdownToPdf md path env).2.created = true) ∧
    (env.closeR = .ok →
      (convertMarkdownToPdf md path env).2.closed =
        (convertMarkdownToPdf md path env).2.created ∧
      ∃ r, (convertMarkdownToPdf md path env).1 = .ok r) ∧
    (∀ r, (convertMarkdownToPdf md path env).1 = .ok r →
      (r.success = false → r.error.isSome = true) ∧
      (r.success = true → r.error = none ∧ r.processingTimeMs = some env.elapsed) ∧
      ((md.data.isEmpty || (trimJS md.data).isEmpty) = false →
        byteLenUtf8 md.data ≤ sizeLimit →
        r.success = false →
        r.processingTimeMs = some env.elapsed)) := by
  unfold convertMarkdownToPdf
  repeat' split
  any_goals simp_all [catchResult, closeWrap_closeCalled, closeWrap_created,
    closeWrap_error_iff, closeWrap_ok_iff, closeWrap_closed_of_ok]
  all_goals (try split_ifs) <;>
    simp_all [catchResult, closeWrap_closeCalled, closeWrap_created,
      closeWrap_error_iff, closeWrap_ok_iff, closeWrap_closed_of_ok]
  all_goals tauto

/-- Witness for C4 (amended), at concrete inputs: a successful run calls
close exactly because it launched; a close rejection is pinned to the
environment's failing close on a created session; a launch failure still
yields a structured `.ok` result carrying an error message and the
elapsed time. -/
theorem convert_structured_teardown_witness :
    (convertMarkdownToPdf "hi" "p" envOk).2.closeCalled =
      (convertMarkdownToPdf "hi" "p" envOk).2.created ∧
    (envCloseFail.closeR = .err "Protocol error: close failed" ∧
      (convertMarkdownToPdf "hi" "p" envCloseFail).2.created = true) ∧
    (convertMarkdownToPdf "hi" "p" envOk).2.closed =
      (convertMarkdownToPdf "hi" "p" envOk).2.created ∧
    (catchResult "p" "net::ERR_FAILED" 42).error.isSome = true ∧
    (catchResult "p" "net::ERR_FAILED" 42).processingTimeMs = some 42 :=
  ⟨(convert_structured_teardown "hi" "p" envOk).1,
   (convert_structured_teardown "hi" "p" envCloseFail).2.1
     "Protocol error: close failed" (by rfl),
   ((convert_structured_teardown "hi" "p" envOk).2.2.1 (by rfl)).1,
   ((convert_structured_teardown "hi" "p" envLaunchFail).2.2.2
     (catchResult "p" "net::ERR_FAILED" 42) (by rfl)).1 (by rfl),
   ((convert_structured_teardown "hi" "p" envLaunchFail).2.2.2
     (catchResult "p" "net::ERR_FAILED" 42) (by rfl)).2.2 (by decide) (by decide) (by rfl)⟩

/-- C8: `preprocessMarkdown` emits exactly one unbalanced-bold warning when
the count of `**` occurrences in the final text is odd and none when it is
even; the input `"**foo"` yields zero fixes and exactly the unbalanced-bold
warning; and the returned markdown is the pass-pipeline output, computed
independently of the warnings. -/
theorem balance_warnings :
    (∀ s : String,
      (preprocessMarkdown s).warnings.count boldWarnMsg =
        (if countDStar (preprocessMarkdown s).markdown.data % 2 = 1 then 1 else 0) ∧
      (preprocessMarkdown s).markdown = String.mk (preprocessCore s.data).1) ∧
    (preprocessMarkdown "**foo").fixes = [] ∧
    (preprocessMarkdown "**foo").warnings = [boldWarnMsg] := by
  refine ⟨fun s => ?_, by decide, by decide⟩
  have hw : (preprocessMarkdown s).warnings = mkWarnings (preprocessCore s.data).1 := rfl
  have hm : (preprocessMarkdown s).markdown = String.mk (preprocessCore s.data).1 := rfl
  refine ⟨?_, hm⟩
  rw [hw, hm]
  generalize (preprocessCore s.data).1 = p
  rw [show (String.mk p).data = p from rfl]
  have d0 : List.count boldWarnMsg [boldWarnMsg] = 1 := by decide
  have d1 : List.count boldWarnMsg [italicWarnMsg] = 0 := by decide
  have d2 : List.count boldWarnMsg [codeWarnMsg] = 0 := by decide
  have d3 : List.count boldWarnMsg [escWarnMsg] = 0 := by decide
  unfold mkWarnings
  rw [List.count_append, List.count_append, List.count_append]
  have g2 : List.count boldWarnMsg
      (if countSingleStar p false % 2 ≠ 0 then [italicWarnMsg] else []) = 0 := by
    by_cases h : countSingleStar p false % 2 ≠ 0 <;> simp [h, d1]
  have g3 : List.count boldWarnMsg
      (if p.count btk % 2 ≠ 0 then [codeWarnMsg] else []) = 0 := by
    by_cases h : p.count btk % 2 ≠ 0 <;> simp [h, d2]
  have g4 : List.count boldWarnMsg
      (if (hasSub [bsl, '*', bsl, '*'] p || hasSub [bsl, '*'] p) = true
       then [escWarnMsg] else []) = 0 := by
    by_cases h : (hasSub [bsl, '*', bsl, '*'] p || hasSub [bsl, '*'] p) = true <;> simp [h, d3]
  rw [g2, g3, g4]
  by_cases h1 : countDStar p % 2 = 0
  · rw [if_neg (by omega), if_neg (by omega)]
    simp
  · rw [if_pos (by omega), if_pos (by omega), d0]

/-- Counterexample for C1: the content of an inline code span is rewritten
by `preprocessMarkdown` — the word-concatenation pass (Fix 9) runs on
unprotected text, so the span `` `fooBar` `` of the input becomes
`` `foo Bar` `` in the output. -/
theorem protected_frame_counterexample :
    codeSpansOf "`fooBar`" = ["`fooBar`".data] ∧
    codeSpansOf (preprocessMarkdown "`fooBar`").markdown = ["`foo Bar`".data] ∧
    codeSpansOf (preprocessMarkdown "`fooBar`").markdown ≠ codeSpansOf "`fooBar`" := by
  decide

/-- C1 (amended): the placeholder protection shields URLs only across the
(disabled) bold passes of Fix 1 and code spans only across the identity
literal-bold scan of Fix 7; the other passes run on unprotected text, and
the word-concatenation pass rewrites characters inside inline code spans
and URLs — e.g. `` `fooBar` `` → `` `foo Bar` `` and
`https://aB.x` → `https://a B.x`. -/
theorem passes_run_unprotected :
    (preprocessMarkdown "`fooBar`").markdown = "`foo Bar`" ∧
    (preprocessMarkdown "see https://aB.x").markdown = "see https://a B.x" ∧
    urlSpansOf "see https://aB.x" = ["https://aB.x".data] ∧
    urlSpansOf "see https://a B.x" = ["https://a".data] := by
  decide

/-- Counterexample for C2: on `"**  hello  **"` the bold-spacing repair is
disabled in the source, so the text is returned unchanged and no fix is
recorded — not `"**hello**"` with one spacing fix. -/
theorem bold_spacing_counterexample :
    (preprocessMarkdown "**  hello  **").markdown ≠ "**hello**" ∧
    (preprocessMarkdown "**  hello  **").fixes = [] := by
  decide

/-- C2 (amended): `preprocessMarkdown "**  hello  **"` returns the input
unchanged with zero fixes and zero warnings, because the aggressive bold
normalization patterns are disabled in the source ("Disabled: These
aggressive patterns were causing cross-line matching issues"). -/
theorem bold_spacing_disabled :
    preprocessMarkdown "**  hello  **" =
      { markdown := "**  hello  **", fixes := [], warnings := [] } := by
  decide

/-- Counterexample for C9: on the already-normalized output of
`preprocessMarkdown "- **⚠️ CAUTION: # Foo"`, a second run records a new
fix (`Added blank line before header`) that is not a word-concatenation
fix. -/
theorem idempotence_counterexample :
    (preprocessMarkdown "- **⚠️ CAUTION: # Foo").fixes = [] ∧
    (preprocessMarkdown (preprocessMarkdown "- **⚠️ CAUTION: # Foo").markdown).fixes =
      ["Added blank line before header"] ∧
    isConcatFix "Added blank line before header" = false := by
  decide

/-- C9 (amended): normalization is not idempotent beyond the
word-concatenation heuristics, and no exclusion of alert-caused
blank-line fixes repairs the claim.  The alert-formatting pass (Fix 11)
moves an alert bullet's trailing heading onto its own line only after
the heading passes (Fix 5) have already scanned the text, so those
passes first see that heading on the next run: the first run on
`# A` + `- **⚠️ CAUTION: ### B` returns its output with zero fixes, yet
the second run on that very output records the two non-concatenation
fixes `Added blank line before header` and `Fixed heading hierarchy: h3
after h1 → h2`; and the first-run output of `- **⚠️ CAUTION: # Foo` is a
textual fixed point on which a run still records the blank-line fix —
since each further run receives that same text, the fix recurs on every
run and the fix stream never becomes empty. -/
theorem idempotence_alert_exception :
    (preprocessMarkdown "# A\n- **⚠️ CAUTION: ### B").fixes = [] ∧
    (preprocessMarkdown
        (preprocessMarkdown "# A\n- **⚠️ CAUTION: ### B").markdown).fixes =
      ["Added blank line before header", "Fixed heading hierarchy: h3 after h1 → h2"] ∧
    (preprocessMarkdown
        (preprocessMarkdown "# A\n- **⚠️ CAUTION: ### B").markdown).fixes.filter
      isConcatFix = [] ∧
    (preprocessMarkdown "- **⚠️ CAUTION:**\n  # Foo").markdown =
      "- **⚠️ CAUTION:**\n  # Foo" ∧
    (preprocessMarkdown "- **⚠️ CAUTION:**\n  # Foo").fixes.filter
      (fun f => !isConcatFix f) = ["Added blank line before header"] := by
  decide

theorem headingLevelOf_elim {t : List Char} {cur : Nat}
    (h : headingLevelOf t = some cur) :
    (t.takeWhile (fun c => c = '#')).length = cur ∧ 1 ≤ cur ∧ cur ≤ 6 ∧
    1 ≤ ((t.drop cur).takeWhile jsWs).length ∧
    (List.range ((t.drop cur).takeWhile jsWs).length).any (fun j =>
      match (t.drop cur).drop (j + 1) with
      | c :: _ => c ≠ '\n'
      | [] => false) = true := by
  simp only [headingLevelOf] at h
  split_ifs at h with h1 h2
  · simp only [Option.some.injEq] at h
    subst h
    exact ⟨rfl, h1.1, h1.2, h2.1, h2.2⟩

theorem headingLevelOf_intro {t : List Char} {cur : Nat}
    (h1 : (t.takeWhile (fun c => c = '#')).length = cur)
    (h2 : 1 ≤ cur) (h3 : cur ≤ 6)
    (h4 : 1 ≤ ((t.drop cur).takeWhile jsWs).length)
    (h5 : (List.range ((t.drop cur).takeWhile jsWs).length).any (fun j =>
      match (t.drop cur).drop (j + 1) with
      | c :: _ => c ≠ '\n'
      | [] => false) = true) :
    headingLevelOf t = some cur := by
  simp only [headingLevelOf, h1]
  rw [if_pos ⟨h2, h3⟩, if_pos ⟨h4, h5⟩]

theorem takeWhile_hash_replicate_append {after : List Char} {e : Nat}
    (h : ∀ c, after.head? = some c → (c = '#') = False) :
    ((List.replicate e '#' ++ after).takeWhile (fun c => c = '#')) =
      List.replicate e '#' := by
  rw [takeWhile_append_all (List.replicate e '#') after
      (fun x hx => by rw [List.eq_of_mem_replicate hx]; simp)]
  cases hafter : after with
  | nil => simp
  | cons w rest =>
    rw [takeWhile_cons_neg rest (by
      have := h w (by rw [hafter]; rfl)
      simp [this])]
    simp

/-- The rewritten heading line of Fix 5 is classified at exactly the
clamped level. -/
theorem headingLevelOf_rewrite {t : List Char} {cur e : Nat}
    (hL : headingLevelOf t = some cur) (he1 : 1 ≤ e) (he6 : e ≤ 6) :
    headingLevelOf (List.replicate e '#' ++ t.drop cur) = some e := by
  obtain ⟨hh, hc1, hc6, hws, hany⟩ := headingLevelOf_elim hL
  have hafter : ∀ c, (t.drop cur).head? = some c → (c = '#') = False := by
    intro c hc
    have hne : (t.drop cur).takeWhile jsWs ≠ [] := by
      intro hnil; rw [hnil] at hws; simp at hws
    cases hd : t.drop cur with
    | nil => rw [hd] at hc; simp at hc
    | cons w rest =>
      rw [hd] at hc
      simp only [List.head?_cons, Option.some.injEq] at hc
      subst hc
      rw [hd] at hne
      by_cases hw : jsWs w
      · simp only [eq_iff_iff, iff_false]
        intro hch
        rw [hch] at hw
        exact absurd hw (by decide)
      · simp [List.takeWhile_cons, hw] at hne
  have hdropE : (List.replicate e '#' ++ t.drop cur).drop e = t.drop cur := by
    have h0 := List.drop_left (List.replicate e '#') (t.drop cur)
    rwa [List.length_replicate] at h0
  apply headingLevelOf_intro
  · rw [takeWhile_hash_replicate_append hafter, List.length_replicate]
  · exact he1
  · exact he6
  · rw [hdropE]; exact hws
  · rw [hdropE]; exact hany

theorem headingLevels_cons_none {l : List Char} {ls : List (List Char)}
    (h : headingLevelOf (trimJS l) = none) :
    headingLevels (l :: ls) = headingLevels ls := by
  simp [headingLevels, List.filterMap_cons, h]

theorem headingLevels_cons_some {l : List Char} {ls : List (List Char)} {n : Nat}
    (h : headingLevelOf (trimJS l) = some n) :
    headingLevels (l :: ls) = n :: headingLevels ls := by
  simp [headingLevels, List.filterMap_cons, h]

theorem headingLevels_blank (ls : List (List Char)) :
    headingLevels (([] : List Char) :: ls) = headingLevels ls :=
  headingLevels_cons_none (by decide)

theorem dropWhile_head_not {p : Char → Bool} : ∀ {l : List Char} {c : Char},
    (l.dropWhile p).head? = some c → p c = false
  | [], c, h => by simp [List.dropWhile] at h
  | a :: r, c, h => by
    rw [List.dropWhile_cons] at h
    split_ifs at h with ha
    · exact dropWhile_head_not h
    · simp only [List.head?_cons, Option.some.injEq] at h
      subst h
      simpa using ha

theorem dropWhile_eq_self_of_head {p : Char → Bool} {l : List Char} {c : Char}
    (hh : l.head? = some c) (hp : p c = false) : l.dropWhile p = l := by
  cases l with
  | nil => rfl
  | cons a r =>
    simp only [List.head?_cons, Option.some.injEq] at hh
    subst hh
    rw [List.dropWhile_cons, if_neg (by simp [hp])]

theorem trimJS_getLast_not_ws {l : List Char} {c : Char}
    (h : (trimJS l).getLast? = some c) : jsWs c = false := by
  unfold trimJS at h
  rw [List.getLast?_reverse] at h
  exact dropWhile_head_not h

theorem getLast?_isSome_of_ne_nil : ∀ {l : List Char}, l ≠ [] → ∃ c, l.getLast? = some c
  | [], h => absurd rfl h
  | [a], _ => ⟨a, rfl⟩
  | a :: b :: r, _ => by
    obtain ⟨c, hc⟩ := getLast?_isSome_of_ne_nil (l := b :: r) (by simp)
    exact ⟨c, by rw [List.getLast?_cons_cons]; exact hc⟩

/-- The rewritten heading line is already trimmed: it starts with `#` and
ends with the last character of the (trimmed) original line. -/
theorem trimJS_rewrite_line {line : List Char} {cur e : Nat}
    (hL : headingLevelOf (trimJS line) = some cur) (he1 : 1 ≤ e) :
    trimJS (List.replicate e '#' ++ (trimJS line).drop cur) =
      List.replicate e '#' ++ (trimJS line).drop cur := by
  set t := trimJS line with ht
  obtain ⟨hh, hc1, hc6, hws, hany⟩ := headingLevelOf_elim hL
  have hne : t.drop cur ≠ [] := by
    intro hnil
    rw [hnil] at hws
    simp at hws
  obtain ⟨e2, rfl⟩ : ∃ e2, e = e2 + 1 := ⟨e - 1, by omega⟩
  set nl := List.replicate (e2 + 1) '#' ++ t.drop cur with hnl
  have hhead : nl.head? = some '#' := by
    rw [hnl, List.replicate_succ]
    rfl
  obtain ⟨c, hlast0⟩ := getLast?_isSome_of_ne_nil hne
  have hlast : nl.getLast? = some c := by
    rw [hnl, List.getLast?_append_of_ne_nil _ hne]
    exact hlast0
  have hlastt : t.getLast? = some c := by
    conv_lhs => rw [← List.take_append_drop cur t]
    rw [List.getLast?_append_of_ne_nil _ hne]
    exact hlast0
  have hcws : jsWs c = false := trimJS_getLast_not_ws (ht ▸ hlastt)
  show trimJS nl = nl
  unfold trimJS
  rw [dropWhile_eq_self_of_head hhead (by decide)]
  rw [dropWhile_eq_self_of_head (by rw [List.head?_reverse]; exact hlast) hcws]
  exact List.reverse_reverse nl

theorem headingLevels_blankPre (b : Bool) (ls : List (List Char)) :
    headingLevels ((if b then [([] : List Char)] else []) ++ ls) = headingLevels ls := by
  cases b
  · rfl
  · rw [if_pos rfl]
    exact headingLevels_blank ls

theorem fix5Go_fixes_mono : ∀ (lines : List (List Char)) (prev : Option (List Char))
    (lastLevel : Nat) (fixes : List (List Char)),
    ∃ ext, (fix5Go lines prev lastLevel fixes).2 = fixes ++ ext
  | [], _, _, fixes => ⟨[], by simp [fix5Go]⟩
  | line :: rest, prev, lastLevel, fixes => by
    cases hL : headingLevelOf (trimJS line) with
    | none =>
      obtain ⟨ext, hext⟩ := fix5Go_fixes_mono rest (some line) lastLevel fixes
      exact ⟨ext, by simp only [fix5Go, hL]; exact hext⟩
    | some cur =>
      simp only [fix5Go, hL]
      set nb := (match prev with
        | some p => !(trimJS p).isEmpty
        | none => false) with hnb
      set fixes1 := (if nb && !(fixes.any fun fx => hasSub blankHdrMsg fx)
        then fixes ++ [blankHdrMsg] else fixes) with hf1
      have hf1ext : ∃ e1, fixes1 = fixes ++ e1 := by
        rw [hf1]; split
        · exact ⟨[blankHdrMsg], rfl⟩
        · exact ⟨[], by simp⟩
      obtain ⟨e1, he1⟩ := hf1ext
      split
      · obtain ⟨e2, he2⟩ := fix5Go_fixes_mono rest
          (some (List.replicate (lastLevel + 1) '#' ++ (trimJS line).drop cur))
          (lastLevel + 1) (fixes1 ++ [hierMsg cur lastLevel (lastLevel + 1)])
        exact ⟨e1 ++ [hierMsg cur lastLevel (lastLevel + 1)] ++ e2, by
          rw [he2, he1]; simp⟩
      · obtain ⟨e2, he2⟩ := fix5Go_fixes_mono rest (some line) cur fixes1
        exact ⟨e1 ++ e2, by rw [he2, he1]; simp⟩

theorem fix5Go_chain : ∀ (lines : List (List Char)) (prev : Option (List Char))
    (lastLevel : Nat) (fixes : List (List Char)),
    List.Chain' (fun a b => b ≤ a + 1) (headingLevels (fix5Go lines prev lastLevel fixes).1) ∧
    (∀ h0, (headingLevels (fix5Go lines prev lastLevel fixes).1).head? = some h0 →
      lastLevel ≠ 0 → h0 ≤ lastLevel + 1)
  | [], _, _, _ => by
    constructor
    · simp [fix5Go, headingLevels]
    · intro h0 hh
      simp [fix5Go, headingLevels] at hh
  | line :: rest, prev, lastLevel, fixes => by
    cases hL : headingLevelOf (trimJS line) with
    | none =>
      have hout : (fix5Go (line :: rest) prev lastLevel fixes).1 =
          line :: (fix5Go rest (some line) lastLevel fixes).1 := by
        simp only [fix5Go, hL]
      rw [hout, headingLevels_cons_none hL]
      exact fix5Go_chain rest (some line) lastLevel fixes
    | some cur =>
      have helim := headingLevelOf_elim hL
      have hc1 : 1 ≤ cur := helim.2.1
      have hc6 : cur ≤ 6 := helim.2.2.1
      by_cases hclamp : lastLevel > 0 ∧ cur > lastLevel + 1
      · have hout : (fix5Go (line :: rest) prev lastLevel fixes).1 =
            (if (match prev with
                 | some p => !(trimJS p).isEmpty
                 | none => false) then [([] : List Char)] else []) ++
            (List.replicate (lastLevel + 1) '#' ++ (trimJS line).drop cur) ::
            (fix5Go rest
              (some (List.replicate (lastLevel + 1) '#' ++ (trimJS line).drop cur))
              (lastLevel + 1)
              ((if (match prev with
                    | some p => !(trimJS p).isEmpty
                    | none => false) &&
                   !(fixes.any fun fx => hasSub blankHdrMsg fx)
                then fixes ++ [blankHdrMsg] else fixes) ++
               [hierMsg cur lastLevel (lastLevel + 1)])).1 := by
          simp only [fix5Go, hL]
          rw [if_pos hclamp]
        have hnewL : headingLevelOf
            (trimJS (List.replicate (lastLevel + 1) '#' ++ (trimJS line).drop cur)) =
            some (lastLevel + 1) := by
          rw [trimJS_rewrite_line hL (by omega)]
          exact headingLevelOf_rewrite hL (by omega) (by omega)
        rw [hout, headingLevels_blankPre, headingLevels_cons_some hnewL]
        obtain ⟨ihc, ihh⟩ := fix5Go_chain rest
          (some (List.replicate (lastLevel + 1) '#' ++ (trimJS line).drop cur))
          (lastLevel + 1) _
        constructor
        · rw [List.chain'_cons']
          refine ⟨?_, ihc⟩
          intro b hb
          exact ihh b hb (by omega)
        · intro h0 hh _
          simp only [List.head?_cons, Option.some.injEq] at hh
          omega
      · have hout : (fix5Go (line :: rest) prev lastLevel fixes).1 =
            (if (match prev with
                 | some p => !(trimJS p).isEmpty
                 | none => false) then [([] : List Char)] else []) ++
            line ::
            (fix5Go rest (some line) cur
              (if (match prev with
                   | some p => !(trimJS p).isEmpty
                   | none => false) &&
                  !(fixes.any fun fx => hasSub blankHdrMsg fx)
               then fixes ++ [blankHdrMsg] else fixes)).1 := by
          simp only [fix5Go, hL]
          rw [if_neg hclamp]
        rw [hout, headingLevels_blankPre, headingLevels_cons_some hL]
        obtain ⟨ihc, ihh⟩ := fix5Go_chain rest (some line) cur _
        constructor
        · rw [List.chain'_cons']
          refine ⟨?_, ihc⟩
          intro b hb
          exact ihh b hb (by omega)
        · intro h0 hh hll
          simp only [List.head?_cons, Option.some.injEq] at hh
          omega

/-- C5: the heading hierarchy fixer is the fold `fix5Go` with state
`lastHeaderLevel`: non-heading lines are emitted unchanged and leave the
state untouched; a heading jumping more than one level past the state is
rewritten to `lastLevel + 1` and a demotion fix is recorded; consequently,
for every input and every starting state, the emitted heading levels never
increase by more than one from one heading to the next. -/
theorem heading_hierarchy_clamp :
    (∀ (lines : List (List Char)) (prev : Option (List Char)) (lastLevel : Nat)
       (fixes : List (List Char)),
      List.Chain' (fun a b => b ≤ a + 1)
        (headingLevels (fix5Go lines prev lastLevel fixes).1)) ∧
    (∀ (line : List Char) (rest : List (List Char)) (prev : Option (List Char))
       (lastLevel : Nat) (fixes : List (List Char)),
      headingLevelOf (trimJS line) = none →
      (fix5Go (line :: rest) prev lastLevel fixes).1 =
        line :: (fix5Go rest (some line) lastLevel fixes).1 ∧
      (fix5Go (line :: rest) prev lastLevel fixes).2 =
        (fix5Go rest (some line) lastLevel fixes).2) ∧
    (∀ (line : List Char) (rest : List (List Char)) (prev : Option (List Char))
       (lastLevel : Nat) (fixes : List (List Char)) (cur : Nat),
      headingLevelOf (trimJS line) = some cur →
      0 < lastLevel → lastLevel + 1 < cur →
      hierMsg cur lastLevel (lastLevel + 1) ∈ (fix5Go (line :: rest) prev lastLevel fixes).2) := by
  refine ⟨fun lines prev lastLevel fixes => (fix5Go_chain lines prev lastLevel fixes).1,
          fun line rest prev lastLevel fixes hL => ?_,
          fun line rest prev lastLevel fixes cur hL h1 h2 => ?_⟩
  · constructor <;> simp only [fix5Go, hL]
  · simp only [fix5Go, hL]
    rw [if_pos ⟨h1, h2⟩]
    obtain ⟨ext, hext⟩ := fix5Go_fixes_mono rest
      (some (List.replicate (lastLevel + 1) '#' ++ (trimJS line).drop cur))
      (lastLevel + 1) _
    rw [hext]
    simp

/-- Witness for C5 at a concrete input: the sequence `# A`, `### B` is
clamped (no emitted level may exceed the previous plus one), a plain text
line is passed through with unchanged state, and a jump from `h1` to `h3`
records the demotion fix. -/
theorem heading_hierarchy_clamp_witness :
    List.Chain' (fun a b => b ≤ a + 1)
      (headingLevels (fix5Go ["# A".data, "### B".data] none 0 []).1) ∧
    (fix5Go ["body".data] (some "# A".data) 1 []).1 =
      "body".data :: (fix5Go [] (some "body".data) 1 []).1 ∧
    hierMsg 3 1 2 ∈ (fix5Go ["### B".data] (some "# A".data) 1 []).2 :=
  ⟨heading_hierarchy_clamp.1 ["# A".data, "### B".data] none 0 [],
   (heading_hierarchy_clamp.2.1 "body".data [] (some "# A".data) 1 [] (by decide)).1,
   heading_hierarchy_clamp.2.2 "### B".data [] (some "# A".data) 1 [] 3 (by decide)
     (by decide) (by decide)⟩

/-- Counterexample for C7: the input `__URL_PLACEHOLDER_1https://a`
contains no full token-shaped substring (`__URL_PLACEHOLDER_<n>__` or
`__CODEBLOCK_<n>__`), yet protecting and restoring its URL does not
reproduce it: the literal prefix fuses with the emitted token and
restoration expands the spurious token `__URL_PLACEHOLDER_1__` to
`undefined`. -/
theorem placeholder_roundtrip_counterexample :
    hasTokenShape urlTokStem "__URL_PLACEHOLDER_1https://a".data = false ∧
    hasTokenShape codeTokStem "__URL_PLACEHOLDER_1https://a".data = false ∧
    restoreUrls (protectUrls "__URL_PLACEHOLDER_1https://a".data).2
        (protectUrls "__URL_PLACEHOLDER_1https://a".data).1 =
      "undefinedURL_PLACEHOLDER_0__".data ∧
    restoreUrls (protectUrls "__URL_PLACEHOLDER_1https://a".data).2
        (protectUrls "__URL_PLACEHOLDER_1https://a".data).1 ≠
      "__URL_PLACEHOLDER_1https://a".data := by
  decide

/-- `matchTokenAt` succeeds at the head of a freshly emitted token and
consumes exactly that token. -/
theorem matchTokenAt_token (tokStem : List Char) (k : Nat) (tail : List Char) :
    matchTokenAt tokStem (tokStem ++ natDecimal k ++ '_' :: '_' :: tail) =
      some (k, tail) := by
  unfold matchTokenAt
  rw [if_pos ((isPre_ex _ _).2 ⟨natDecimal k ++ '_' :: '_' :: tail, by simp⟩)]
  have hdrop : (tokStem ++ natDecimal k ++ '_' :: '_' :: tail).drop tokStem.length =
      natDecimal k ++ '_' :: '_' :: tail := by
    rw [List.append_assoc]
    exact List.drop_left _ _
  rw [hdrop]
  have htw : (natDecimal k ++ '_' :: '_' :: tail).takeWhile Char.isDigit =
      natDecimal k := by
    rw [takeWhile_append_all _ _ (natDecimal_digits k),
        takeWhile_cons_neg _ (by decide), List.append_nil]
  rw [htw]
  rw [if_neg (by simp [natDecimal_ne_nil k])]
  rw [List.drop_left]
  rw [digitsToNat_natDecimal]
  rfl

/-- A successful token match pins the text to stem-digit-prefixed form. -/
theorem matchTokenAt_some_pre {tokStem cs : List Char} {n : Nat} {rest : List Char}
    (h : matchTokenAt tokStem cs = some (n, rest)) :
    ∃ d t2, d.isDigit = true ∧ cs = (tokStem ++ [d]) ++ t2 := by
  unfold matchTokenAt at h
  by_cases hp : tokStem.isPrefixOf cs
  · rw [if_pos hp] at h
    by_cases hde : ((cs.drop tokStem.length).takeWhile Char.isDigit).isEmpty
    · rw [if_pos hde] at h
      simp at h
    · obtain ⟨t, ht⟩ := (isPre_ex _ _).1 hp
      rw [ht, List.drop_left] at hde
      cases hc : t with
      | nil => rw [hc] at hde; simp at hde
      | cons d t2 =>
        rw [hc] at hde
        by_cases hd : d.isDigit
        · exact ⟨d, t2, hd, by rw [ht, hc]; simp⟩
        · rw [List.takeWhile_cons, if_neg hd] at hde
          simp at hde
  · rw [if_neg hp] at h
    simp at h

/-- No spurious token match: if the input contains no occurrence of the
token stem, then a stem-plus-digit prefix of the protected text can only
arise from a genuine span match at the very start. -/
theorem protect_no_spurious
    (tokStem : List Char) (mtch : List Char → Option (List Char × List Char))
    (hm : ∀ cs m r, mtch cs = some (m, r) → m ≠ [] ∧ cs = m ++ r)
    (hnd : ∀ c ∈ tokStem, c.isDigit = false) :
    ∀ (fuel : Nat) (cs : List Char), cs.length < fuel →
    ∀ (j : Nat) (tbl : List (List Char)) (d : Char), j < tokStem.length →
      d.isDigit = true →
      hasSub tokStem (tokStem.take j ++ cs) = false →
      ((tokStem.drop j ++ [d]).isPrefixOf (protectAux tokStem mtch fuel cs tbl).1) = true →
      j = 0 ∧ mtch cs ≠ none := by
  intro fuel
  induction fuel with
  | zero => intro cs hf; omega
  | succ f ih =>
    intro cs hf j tbl d hj hd hsub hpre
    cases cs with
    | nil =>
      simp only [protectAux] at hpre
      rw [isPre_ex] at hpre
      obtain ⟨t, ht⟩ := hpre
      have := congrArg List.length ht
      simp at this
      omega
    | cons c r =>
      cases hmt : mtch (c :: r) with
      | some pr =>
        obtain ⟨m, rest⟩ := pr
        obtain ⟨hm1, hm2⟩ := hm _ _ _ hmt
        have hrl : rest.length < r.length + 1 := by
          have := congrArg List.length hm2
          simp only [List.length_cons, List.length_append] at this
          cases m with
          | nil => exact absurd rfl hm1
          | cons _ _ => simp at this; omega
        have hout : (protectAux tokStem mtch (f + 1) (c :: r) tbl).1 =
            tokStem ++ natDecimal tbl.length ++ '_' :: '_' ::
              (protectAux tokStem mtch f rest (tbl ++ [m])).1 := by
          simp only [protectAux, hmt]
          rw [if_pos hrl]
        rw [hout] at hpre
        rcases Nat.eq_zero_or_pos j with hj0 | hjpos
        · exact ⟨hj0, by simp [hmt]⟩
        · exfalso
          rw [isPre_ex] at hpre
          obtain ⟨t, ht⟩ := hpre
          have hlen : (tokStem.drop j ++ [d]).length ≤ tokStem.length := by
            simp only [List.length_append, List.length_drop, List.length_cons,
              List.length_nil]
            omega
          have htake : ((tokStem.drop j ++ [d]) ++ t).take (tokStem.drop j ++ [d]).length =
              tokStem.drop j ++ [d] := List.take_left _ _
          rw [← ht] at htake
          rw [List.append_assoc] at htake
          rw [List.take_append_of_le_length hlen] at htake
          have hdmem : d ∈ tokStem.take (tokStem.drop j ++ [d]).length := by
            rw [htake]
            simp
          have : d ∈ tokStem := List.take_subset _ _ hdmem
          rw [hnd d this] at hd
          exact absurd hd (by simp)
      | none =>
        have hout : (protectAux tokStem mtch (f + 1) (c :: r) tbl).1 =
            c :: (protectAux tokStem mtch f r tbl).1 := by
          simp only [protectAux, hmt]
        rw [hout] at hpre
        rw [List.drop_eq_getElem_cons hj] at hpre
        rw [isPre_ex] at hpre
        obtain ⟨t, ht⟩ := hpre
        simp only [List.cons_append] at ht
        injection ht with hc ht2
        by_cases hj1 : j + 1 < tokStem.length
        · have hsub2 : hasSub tokStem (tokStem.take (j + 1) ++ r) = false := by
            rw [List.take_succ, List.getElem?_eq_getElem hj]
            simp only [Option.toList_some]
            rw [List.append_assoc, List.singleton_append, ← hc]
            exact hsub
          have hres := ih r (by simp only [List.length_cons] at hf; omega) (j + 1) tbl d
            hj1 hd hsub2 (by rw [isPre_ex]; exact ⟨t, ht2⟩)
          exact absurd hres.1 (by omega)
        · exfalso
          have hts : tokStem = tokStem.take j ++ [tokStem[j]] := by
            conv_lhs => rw [← List.take_append_drop j tokStem]
            rw [List.drop_eq_getElem_cons hj, List.drop_eq_nil_of_le (by omega)]
          have hpre2 : tokStem.isPrefixOf (tokStem.take j ++ (c :: r)) = true := by
            rw [isPre_ex]
            refine ⟨r, ?_⟩
            conv_rhs => rw [hts]
            rw [hc]
            simp
            rw [List.take_succ, List.getElem?_eq_getElem hj]
            simp only [Option.toList_some, List.append_assoc, List.singleton_append]
          have := hasSub_of_pre hpre2
          rw [hsub] at this
          exact absurd this (by simp)

/-- Round trip of the generic placeholder scan: on text free of the token
stem, restoring right after protecting reproduces the text, and the
table only grows. -/
theorem protect_restore_aux
    (tokStem : List Char) (mtch : List Char → Option (List Char × List Char))
    (hm : ∀ cs m r, mtch cs = some (m, r) → m ≠ [] ∧ cs = m ++ r)
    (hnd : ∀ c ∈ tokStem, c.isDigit = false) (hne : tokStem ≠ []) :
    ∀ (fuel : Nat) (cs : List Char), cs.length < fuel →
      hasSub tokStem cs = false → ∀ (tbl : List (List Char)),
      (∃ ext, (protectAux tokStem mtch fuel cs tbl).2 = tbl ++ ext) ∧
      (∀ (gfuel : Nat), (protectAux tokStem mtch fuel cs tbl).1.length < gfuel →
        restoreAux tokStem (protectAux tokStem mtch fuel cs tbl).2 gfuel
          (protectAux tokStem mtch fuel cs tbl).1 = cs) := by
  intro fuel
  induction fuel with
  | zero => intro cs hf; omega
  | succ f ih =>
    intro cs hf hsub tbl
    cases cs with
    | nil =>
      refine ⟨⟨[], by simp [protectAux]⟩, ?_⟩
      intro gfuel _
      show restoreAux tokStem tbl gfuel [] = []
      cases gfuel <;> rfl
    | cons c r =>
      cases hmt : mtch (c :: r) with
      | some pr =>
        obtain ⟨m, rest⟩ := pr
        obtain ⟨hm1, hm2⟩ := hm _ _ _ hmt
        have hrl : rest.length < r.length + 1 := by
          have := congrArg List.length hm2
          simp only [List.length_cons, List.length_append] at this
          cases m with
          | nil => exact absurd rfl hm1
          | cons _ _ => simp at this; omega
        have hout1 : (protectAux tokStem mtch (f + 1) (c :: r) tbl).1 =
            tokStem ++ natDecimal tbl.length ++ '_' :: '_' ::
              (protectAux tokStem mtch f rest (tbl ++ [m])).1 := by
          simp only [protectAux, hmt]
          rw [if_pos hrl]
        have hout2 : (protectAux tokStem mtch (f + 1) (c :: r) tbl).2 =
            (protectAux tokStem mtch f rest (tbl ++ [m])).2 := by
          simp only [protectAux, hmt]
          rw [if_pos hrl]
        have hsubr : hasSub tokStem rest = false := by
          rw [hm2] at hsub
          exact hasSub_append_right m hsub
        have hfr : rest.length < f := by
          simp only [List.length_cons] at hf
          omega
        obtain ⟨⟨ext, hext⟩, hrest⟩ := ih rest hfr hsubr (tbl ++ [m])
        refine ⟨⟨[m] ++ ext, by rw [hout2, hext]; simp⟩, ?_⟩
        intro gfuel hg
        rw [hout1] at hg
        obtain ⟨g, rfl⟩ : ∃ g, gfuel = g + 1 := ⟨gfuel - 1, by omega⟩
        rw [hout1, hout2]
        obtain ⟨t0, ts, hts⟩ : ∃ t0 ts, tokStem = t0 :: ts := by
          cases tokStem with
          | nil => exact absurd rfl hne
          | cons a b => exact ⟨a, b, rfl⟩
        have hext2 : (protectAux tokStem mtch f rest (tbl ++ [m])).2 = tbl ++ m :: ext := by
          rw [hext]
          simp
        rw [hts, List.cons_append, List.cons_append]
        simp only [restoreAux]
        rw [← List.cons_append, ← List.cons_append, ← hts]
        simp only [matchTokenAt_token tokStem tbl.length]
        rw [if_pos (by simp only [List.length_append, List.length_cons]; omega)]
        have hlook : (protectAux tokStem mtch f rest (tbl ++ [m])).2[tbl.length]? = some m := by
          rw [hext2]
          exact getElem?_append_middle tbl m ext
        rw [hlook]
        simp only [Option.getD_some]
        rw [hm2]
        congr 1
        apply hrest g
        simp only [List.length_append, List.length_cons] at hg
        omega
      | none =>
        have hout1 : (protectAux tokStem mtch (f + 1) (c :: r) tbl).1 =
            c :: (protectAux tokStem mtch f r tbl).1 := by
          simp only [protectAux, hmt]
        have hout2 : (protectAux tokStem mtch (f + 1) (c :: r) tbl).2 =
            (protectAux tokStem mtch f r tbl).2 := by
          simp only [protectAux, hmt]
        have hsubr := hasSub_tail hsub
        have hfr : r.length < f := by
          simp only [List.length_cons] at hf
          omega
        obtain ⟨⟨ext, hext⟩, hrest⟩ := ih r hfr hsubr tbl
        refine ⟨⟨ext, by rw [hout2, hext]⟩, ?_⟩
        intro gfuel hg
        rw [hout1] at hg
        obtain ⟨g, rfl⟩ : ∃ g, gfuel = g + 1 := ⟨gfuel - 1, by omega⟩
        rw [hout1, hout2]
        have hnone : matchTokenAt tokStem (c :: (protectAux tokStem mtch f r tbl).1) = none := by
          cases hmtk : matchTokenAt tokStem (c :: (protectAux tokStem mtch f r tbl).1) with
          | none => rfl
          | some pr2 =>
            exfalso
            obtain ⟨n2, rest2⟩ := pr2
            obtain ⟨d, t2, hd, hform⟩ := matchTokenAt_some_pre hmtk
            have hpre : ((tokStem.drop 0 ++ [d]).isPrefixOf
                (protectAux tokStem mtch (f + 1) (c :: r) tbl).1) = true := by
              rw [List.drop_zero, hout1, isPre_ex]
              exact ⟨t2, hform⟩
            have hj0 : 0 < tokStem.length := by
              cases tokStem with
              | nil => exact absurd rfl hne
              | cons a b => simp
            have hspur := protect_no_spurious tokStem mtch hm hnd (f + 1) (c :: r) hf 0 tbl d
              hj0 hd (by simpa using hsub) hpre
            exact hspur.2 hmt
        show restoreAux tokStem _ (g + 1) (c :: _) = _
        simp only [restoreAux, hnone]
        congr 1
        apply hrest g
        simp only [List.length_cons] at hg
        omega

/-- C7 (amended): placeholder round-trip — for every text containing no
occurrence of the placeholder stems `__URL_PLACEHOLDER_` / `__CODEBLOCK_`
(a stronger precondition than only excluding full token-shaped substrings,
which the counterexample shows is insufficient), protecting URLs or code
spans and then restoring them with no pass in between reproduces the text
exactly, every emitted token being consumed by the restoration. -/
theorem placeholder_roundtrip_amended (cs : List Char)
    (h1 : hasSub urlTokStem cs = false) (h2 : hasSub codeTokStem cs = false) :
    restoreUrls (protectUrls cs).2 (protectUrls cs).1 = cs ∧
    restoreCode (protectCode cs).2 (protectCode cs).1 = cs := by
  have hu := (protect_restore_aux urlTokStem matchUrlAt
      (fun _ _ _ h => matchUrlAt_sound h) (by decide) (by decide)
      (cs.length + 1) cs (by omega) h1 []).2
      ((protectAux urlTokStem matchUrlAt (cs.length + 1) cs []).1.length + 1)
      (by omega)
  have hc := (protect_restore_aux codeTokStem matchCodeAt
      (fun _ _ _ h => matchCodeAt_sound h) (by decide) (by decide)
      (cs.length + 1) cs (by omega) h2 []).2
      ((protectAux codeTokStem matchCodeAt (cs.length + 1) cs []).1.length + 1)
      (by omega)
  exact ⟨hu, hc⟩

/-- Witness for C7 (amended) at a concrete text containing a URL, an
inline code span and a fenced block. -/
theorem placeholder_roundtrip_amended_witness :
    restoreUrls (protectUrls "see https://x.io and `a b` then ```f(x)``` end".data).2
        (protectUrls "see https://x.io and `a b` then ```f(x)``` end".data).1 =
      "see https://x.io and `a b` then ```f(x)``` end".data ∧
    restoreCode (protectCode "see https://x.io and `a b` then ```f(x)``` end".data).2
        (protectCode "see https://x.io and `a b` then ```f(x)``` end".data).1 =
      "see https://x.io and `a b` then ```f(x)``` end".data :=
  placeholder_roundtrip_amended "see https://x.io and `a b` then ```f(x)``` end".data
    (by decide) (by decide)
